import Mathlib

/-!
Verification development for the infracollect job engine.

This file gives a shallow embedding, in Lean 4, of the parts of the
infracollect code base that the checked claims are about:

* the variable map construction (`BuildVariables` in
  `internal/runner/pipeline.go`),
* the template expansion engine (`Expand` in `internal/runner/template.go`,
  which delegates to the Go standard library function `os.Expand`),
* the engine pipeline (`Pipeline.Run` in `internal/engine/pipeline.go`),
* the runner (`Runner.Run` and `Runner.WriteResults` in
  `internal/runner/template.go`),
* the archive sink adapter (`internal/engine/sinks/archive.go`) together
  with the tar archiver (`internal/engine/archivers`), down to the tar
  byte format,
* the static step (`internal/engine/steps`, static file variant) and the
  exec step (result post-processing, JSON decoding and base64 encoding).

Go maps have an unspecified iteration order; wherever the source ranges
over a map (collector start and close loops, `WriteResults`), the
embedding takes the iteration order as an explicit parameter that is
constrained to be a permutation of the map entries.  Go `time.Now()`
calls are modelled by explicit clock-reading parameters, one per call
site.  Machine integers are modelled as `Nat` (none of the embedded code
relies on overflow), and byte streams as `List Nat`.
-/

set_option maxRecDepth 16384

namespace Infracollect

/-- JSON-like structured value, the model of a Go `any` holding decoded
JSON data.  Numbers keep their literal text (the embedding does not model
IEEE floats; no checked claim depends on numeric value identity beyond
the literal). -/
inductive Jv where
  | null : Jv
  | bool (b : Bool) : Jv
  | num (lit : String) : Jv
  | str (s : String) : Jv
  | arr (elems : List Jv) : Jv
  | obj (fields : List (String × Jv)) : Jv

/-- The engine `Result` (`internal/engine/result.go`):
`{ ID string; Data any; Meta map[string]string }`.  `Meta` is kept as an
association list in insertion order. -/
structure Result where
  id : String
  data : Jv
  meta : List (String × String)

/-! ## Clock instants and their formatting

`engine.ISO8601Basic` is the Go layout `"20060102T150405Z"`, and
`time.RFC3339` renders as `"2006-01-02T15:04:05Z"` for a UTC instant.
An instant is modelled by its broken-down UTC fields. -/

/-- A UTC clock reading, as produced by one `time.Now().UTC()` call. -/
structure DateTime where
  year : Nat
  month : Nat
  day : Nat
  hour : Nat
  minute : Nat
  second : Nat
deriving DecidableEq, Repr

/-- Left-pad the decimal rendering of `n` with zeros to width 2. -/
def pad2 (n : Nat) : String :=
  if n < 10 then "0" ++ toString n else toString n

/-- Left-pad the decimal rendering of `n` with zeros to width 4. -/
def pad4 (n : Nat) : String :=
  if n < 10 then "000" ++ toString n
  else if n < 100 then "00" ++ toString n
  else if n < 1000 then "0" ++ toString n
  else toString n

/-- `date.Format(engine.ISO8601Basic)`: layout `20060102T150405Z`. -/
def formatISO8601 (t : DateTime) : String :=
  pad4 t.year ++ pad2 t.month ++ pad2 t.day ++ "T" ++
    pad2 t.hour ++ pad2 t.minute ++ pad2 t.second ++ "Z"

/-- `date.Format(time.RFC3339)` for a UTC instant:
layout `2006-01-02T15:04:05Z`. -/
def formatRFC3339 (t : DateTime) : String :=
  pad4 t.year ++ "-" ++ pad2 t.month ++ "-" ++ pad2 t.day ++ "T" ++
    pad2 t.hour ++ ":" ++ pad2 t.minute ++ ":" ++ pad2 t.second ++ "Z"

/-! ## Variable maps

A Go `map[string]string` is modelled as a function `String → Option String`
(lookups only; insertion overwrites). -/

/-- The model of a Go string map. -/
def VarMap : Type := String → Option String

/-- The empty map. -/
def VarMap.empty : VarMap := fun _ => none

/-- Map insertion: `m[k] = v` overwrites any previous binding of `k`. -/
def VarMap.insert (m : VarMap) (k v : String) : VarMap :=
  fun q => if q = k then some v else m q

/-! ## BuildVariables (`internal/runner/pipeline.go`)

```go
func BuildVariables(job v1.CollectJob, allowedEnv []string) (map[string]string, error) {
    date := time.Now().UTC()
    variables := map[string]string{
        "JOB_NAME":         job.Metadata.Name,
        "JOB_DATE_ISO8601": date.Format(engine.ISO8601Basic),
        "JOB_DATE_RFC3339": date.Format(time.RFC3339),
    }
    var errs error
    for _, envName := range allowedEnv {
        val, ok := os.LookupEnv(envName)
        if !ok {
            errs = errors.Join(errs, fmt.Errorf("environment variable %q is not set", envName))
            continue
        }
        variables[envName] = val
    }
    if errs != nil { return nil, errs }
    return variables, nil
}
```

The process environment is a parameter `env : String → Option String`
(`os.LookupEnv`), and the `time.Now().UTC()` call is the explicit
parameter `date`. -/

/-- The error message `environment variable %q is not set`. -/
def envNotSetMsg (name : String) : String :=
  "environment variable \"" ++ name ++ "\" is not set"

/-- The built-in portion of the variable map: the three literal entries of
the Go map literal in `BuildVariables`. -/
def builtinVariables (jobName : String) (date : DateTime) : VarMap :=
  (((VarMap.empty).insert "JOB_NAME" jobName).insert
      "JOB_DATE_ISO8601" (formatISO8601 date)).insert
    "JOB_DATE_RFC3339" (formatRFC3339 date)

/-- The `for _, envName := range allowedEnv` loop of `BuildVariables`:
threads the map and the accumulated error list. -/
def buildVarsLoop (env : String → Option String) :
    List String → VarMap → List String → VarMap × List String
  | [], m, errs => (m, errs)
  | envName :: rest, m, errs =>
    match env envName with
    | none => buildVarsLoop env rest m (errs ++ [envNotSetMsg envName])
    | some val => buildVarsLoop env rest (m.insert envName val) errs

/-- `BuildVariables`, with the environment and the clock reading made
explicit.  Returns the map, or the aggregated per-name errors. -/
def BuildVariables (jobName : String) (allowedEnv : List String)
    (env : String → Option String) (date : DateTime) :
    Except (List String) VarMap :=
  if (buildVarsLoop env allowedEnv (builtinVariables jobName date) []).2 = []
  then .ok (buildVarsLoop env allowedEnv (builtinVariables jobName date) []).1
  else .error (buildVarsLoop env allowedEnv (builtinVariables jobName date) []).2

/-! ## Template expansion (`internal/runner/template.go` and Go `os.Expand`)

```go
func Expand(value string, variables map[string]string) (string, error) {
    var errs error
    result := os.Expand(value, func(key string) string {
        if val, ok := variables[key]; ok { return val }
        errs = errors.Join(errs, fmt.Errorf("environment variable %q is not in the allowed list", key))
        return ""
    })
    if errs != nil { return "", errs }
    return result, nil
}
```

`os.Expand` scans the string once, left to right; at every `$` it calls
`getShellName` on the remainder to classify the reference.  The embedding
translates `os.Expand` and `getShellName` from the Go standard library
sources, operating on `List Char`. -/

/-- Go `os.isShellSpecialVar`. -/
def isShellSpecialVar (c : Char) : Bool :=
  c = '*' || c = '#' || c = '$' || c = '@' || c = '!' || c = '?' ||
    ('0' ≤ c && c ≤ '9')

/-- Go `os.isAlphaNum`. -/
def isAlphaNum (c : Char) : Bool :=
  c = '_' || ('0' ≤ c && c ≤ '9') || ('a' ≤ c && c ≤ 'z') ||
    ('A' ≤ c && c ≤ 'Z')

/-- The brace-scanning loop of `getShellName`: `l` is the input after the
opening brace, `acc` the name accumulated so far, `p` the 0-based index in
`l`.  Returns the Go pair `(name, width)` where the width counts the
characters consumed after the `$` (so the brace form `${N}` has width
`|N| + 2`). -/
def braceScan : List Char → List Char → Nat → List Char × Nat
  | [], _, _ => ([], 1)
  | c :: rest, acc, p =>
    if c = '}' then
      if p = 0 then ([], 2) else (acc, p + 2)
    else braceScan rest (acc ++ [c]) (p + 1)

/-- Go `os.getShellName`, applied to the input after a `$`. -/
def getShellName : List Char → List Char × Nat
  | [] => ([], 0)
  | '{' :: rest =>
    match rest with
    | c :: '}' :: _ =>
      if isShellSpecialVar c then ([c], 3) else braceScan rest [] 0
    | _ => braceScan rest [] 0
  | c :: rest =>
    if isShellSpecialVar c then ([c], 1)
    else
      let nm := (c :: rest).takeWhile isAlphaNum
      (nm, nm.length)

/-- The scanning loop of `os.Expand`, fused with the error-recording
mapping of `Runner.Expand`: returns the expanded output and the names of
the unresolved references, in encounter order (one entry per unresolved
reference occurrence, matching the `errors.Join` accumulation).  `fuel`
bounds the recursion structurally; the entry point `expandCore` passes
the input length, which always suffices because every step consumes at
least one character. -/
def expandGo (vars : VarMap) : Nat → List Char → List Char × List String
  | 0, _ => ([], [])
  | _ + 1, [] => ([], [])
  | _ + 1, ['$'] => (['$'], [])
  | fuel + 1, '$' :: c :: rest =>
    let nw := getShellName (c :: rest)
    if nw.1 = [] && nw.2 > 0 then
      -- invalid syntax; eat the characters
      expandGo vars fuel ((c :: rest).drop nw.2)
    else if nw.1 = [] then
      -- valid syntax, but $ was not followed by a name; keep the $
      let om := expandGo vars fuel (c :: rest)
      ('$' :: om.1, om.2)
    else
      let name := String.mk nw.1
      let om := expandGo vars fuel ((c :: rest).drop nw.2)
      match vars name with
      | some v => (v.data ++ om.1, om.2)
      | none => (om.1, name :: om.2)
  | fuel + 1, c :: rest =>
    let om := expandGo vars fuel rest
    (c :: om.1, om.2)

/-- The `os.Expand` scan of a character list. -/
def expandCore (vars : VarMap) (s : List Char) : List Char × List String :=
  expandGo vars s.length s

/-- Same traversal as `expandGo`, independent of any variable map,
collecting every name passed to the mapping function. -/
def referencesGo : Nat → List Char → List String
  | 0, _ => []
  | _ + 1, [] => []
  | _ + 1, ['$'] => []
  | fuel + 1, '$' :: c :: rest =>
    let nw := getShellName (c :: rest)
    if nw.1 = [] && nw.2 > 0 then
      referencesGo fuel ((c :: rest).drop nw.2)
    else if nw.1 = [] then
      referencesGo fuel (c :: rest)
    else
      String.mk nw.1 :: referencesGo fuel ((c :: rest).drop nw.2)
  | fuel + 1, _ :: rest => referencesGo fuel rest

/-- The sequence of variable references in a string, in encounter order:
the names `os.Expand` passes to its mapping function. -/
def references (s : List Char) : List String :=
  referencesGo s.length s

/-- The error message of `Runner.Expand` for an unresolved reference:
`environment variable %q is not in the allowed list`. -/
def notAllowedMsg (name : String) : String :=
  "environment variable \"" ++ name ++ "\" is not in the allowed list"

/-- `Runner.Expand`: expands `${NAME}` / `$NAME` references against the
variable map; if any reference is unresolved, fails with the aggregated
list of per-reference errors. -/
def Expand (value : String) (vars : VarMap) : Except (List String) String :=
  if (expandCore vars value.data).2 = [] then
    .ok (String.mk (expandCore vars value.data).1)
  else .error ((expandCore vars value.data).2.map notAllowedMsg)

/-! ## The engine pipeline (`internal/engine/pipeline.go`)

A step is identified by its pipeline id; its `Resolve(ctx)` outcome under
the (non-cancelled) run context is modelled by an `Except` value.  A
collector is identified by its id and `Name()`, with its `Start(ctx)`
outcome. -/

/-- `engine.StepEntry` together with the observable behaviour of the
step's `Resolve`. -/
structure StepEntry where
  id : String
  resolve : Except String Result

/-- A registered collector together with the observable outcome of its
`Start(ctx)` call (`none` = success). -/
structure CollectorModel where
  id : String
  name : String
  startErr : Option String

/-- `Pipeline.Run` (context not cancelled): resolves the steps strictly in
declaration order; on the first failure returns `nil` results and the
error wrapped with the step id; otherwise overwrites each result's `ID`
with the step's pipeline id and stores it in the results map (modelled as
an association list in insertion order, exactly one entry per unique step
id). -/
def pipelineRun : List StepEntry → Except String (List (String × Result))
  | [] => .ok []
  | e :: rest =>
    match e.resolve with
    | .error err =>
      .error ("failed to resolve step \x27" ++ e.id ++ "\x27: " ++ err)
    | .ok r =>
      match pipelineRun rest with
      | .error err => .error err
      | .ok m => .ok ((e.id, { r with id := e.id }) :: m)

/-- The ids of the steps on which `Resolve` is actually invoked during
`Pipeline.Run`: every step up to and including the first failing one. -/
def pipelineRunTrace : List StepEntry → List String
  | [] => []
  | e :: rest =>
    match e.resolve with
    | .error _ => [e.id]
    | .ok _ => e.id :: pipelineRunTrace rest

/-! ## Sinks and the runner (`internal/runner/template.go`)

A sink is observed through its trace of `Write` and `Close` calls. -/

/-- One observable call on a sink. -/
inductive SinkEvent where
  | write (path : String) (data : List Nat) : SinkEvent
  | close : SinkEvent
deriving DecidableEq

/-- The write events of a trace. -/
def writesOf (events : List SinkEvent) : List SinkEvent :=
  events.filter (fun e => match e with | .write _ _ => true | .close => false)

/-- The paths of the write events of a trace, in order. -/
def writePathsOf (events : List SinkEvent) : List String :=
  events.filterMap (fun e => match e with | .write p _ => some p | .close => none)

/-- `Runner.WriteResults`: ranges over the results map — a Go map, so the
iteration order is an arbitrary permutation `order` of the map entries —
encoding each result and writing it under `{step_id}.{ext}`, then closes
the sink.  `encode` models `encoder.EncodeResult` (assumed to succeed, as
the JSON encoder does) and `ext` models `encoder.FileExtension()`. -/
def WriteResults (encode : Result → List Nat) (ext : String)
    (order : List (String × Result)) : List SinkEvent :=
  order.map (fun p => .write (p.1 ++ "." ++ ext) (encode p.2)) ++ [.close]

/-- The `for id, collector := range r.pipeline.Collectors()` start loop of
`Runner.Run`, over the collectors in (map-)iteration order: returns the
ids of the collectors whose `Start` succeeded before the first failure,
and the wrapped error of the first failing `Start`, if any. -/
def startLoop : List CollectorModel → List String × Option String
  | [] => ([], none)
  | c :: rest =>
    match c.startErr with
    | some err =>
      ([], some ("failed to start collector \x27" ++ c.id ++ "\x27 (" ++
        c.name ++ "): " ++ err))
    | none =>
      let r := startLoop rest
      (c.id :: r.1, r.2)

/-- The observable outcome of one `Runner.Run` call. -/
structure RunnerOutcome where
  result : Except String Unit
  /-- Ids of the collectors whose `Close` was attempted (in the deferred
  cleanup, under a background context). -/
  closed : List String
  /-- The trace of calls the runner made on its sink. -/
  sinkEvents : List SinkEvent

/-- `Runner.Run`: starts every collector in (map-)iteration order,
returning on the first `Start` failure; only after the start loop does it
register the deferred cleanup that closes every collector under a
background context; then runs the pipeline and, on success, writes the
results.  `writeOrder` is the (map-)iteration order of `WriteResults`. -/
def RunnerRun (collectors : List CollectorModel) (steps : List StepEntry)
    (encode : Result → List Nat) (ext : String)
    (writeOrder : List (String × Result)) : RunnerOutcome :=
  match (startLoop collectors).2 with
  | some err =>
    -- the deferred cleanup is registered after the start loop, so a
    -- Start failure returns before any Close is attempted
    { result := .error err, closed := [], sinkEvents := [] }
  | none =>
    let closed := collectors.map (fun c => c.id)
    match pipelineRun steps with
    | .error err =>
      { result := .error ("failed to run pipeline: " ++ err),
        closed := closed, sinkEvents := [] }
    | .ok _ =>
      { result := .ok (), closed := closed,
        sinkEvents := WriteResults encode ext writeOrder }

/-! ## Tar archiver (`internal/engine/archivers/tar.go`)

`TarArchiver.AddFile` reads the entry fully, then writes a tar header
`{Name: filename, Mode: 0644, Size: len(content)}` followed by the
content through Go's `archive/tar` writer; `Close` finalizes the tar
stream (two zero blocks) and hands the bytes to the optional compressor.
The embedding realizes the tar byte format itself (USTAR layout, as the
Go standard library serializes these headers: octal numeric fields padded
with leading zeros and NUL-terminated, checksum over the header with the
checksum field read as spaces, contents padded to 512-byte blocks).  The
unset header fields (mtime, uname, gname, device numbers, typeflag) are
written as the Go zero values; no claim depends on them. -/

/-- Format a numeric tar header field of `width` bytes: the octal digits
left-padded with `'0'` to `width - 1` characters, then a NUL. -/
def formatOctal (width n : Nat) : List Nat :=
  let ds := ((Nat.digits 8 n).reverse).map (fun d => d + 48)
  List.replicate (width - 1 - ds.length) 48 ++ ds ++ [0]

/-- Parse a numeric tar header field: the leading run of octal digit
bytes, as a base-8 number. -/
def parseOctal (field : List Nat) : Nat :=
  (field.takeWhile (fun b => 48 ≤ b && b ≤ 55)).foldl
    (fun a d => a * 8 + (d - 48)) 0

/-- NUL-pad a byte string on the right to `w` bytes. -/
def padTo (w : Nat) (l : List Nat) : List Nat :=
  l ++ List.replicate (w - l.length) 0

/-- Bytes 0–147 of a tar header: name (100), mode (8), uid (8), gid (8),
size (12), mtime (12). -/
def tarHeaderPre (nameB : List Nat) (mode size : Nat) : List Nat :=
  padTo 100 nameB ++ formatOctal 8 mode ++ formatOctal 8 0 ++
    formatOctal 8 0 ++ formatOctal 12 size ++ formatOctal 12 0

/-- Bytes 156–511 of a tar header: typeflag (1), linkname (100), magic
`ustar\x00` (6), version `00` (2), uname (32), gname (32), devmajor (8),
devminor (8), prefix (155), padding (12). -/
def tarHeaderPost : List Nat :=
  [0] ++ List.replicate 100 0 ++ [117, 115, 116, 97, 114, 0] ++ [48, 48] ++
    List.replicate 32 0 ++ List.replicate 32 0 ++ List.replicate 8 0 ++
    List.replicate 8 0 ++ List.replicate 155 0 ++ List.replicate 12 0

/-- The header checksum: the sum of the 512 header bytes with the 8
checksum bytes read as ASCII spaces. -/
def tarChecksum (pre post : List Nat) : Nat := pre.sum + 8 * 32 + post.sum

/-- A full 512-byte tar header block.  The checksum field is six octal
digits, a NUL, and a space. -/
def tarHeader (nameB : List Nat) (mode size : Nat) : List Nat :=
  let pre := tarHeaderPre nameB mode size
  pre ++ (formatOctal 7 (tarChecksum pre tarHeaderPost) ++ [32]) ++
    tarHeaderPost

/-- Number of NUL padding bytes after an entry body of `n` bytes. -/
def tarPad (n : Nat) : Nat := (512 - n % 512) % 512

/-- One archive entry as `TarArchiver.AddFile` emits it: header with
`Mode: 0644` and `Size: len(content)`, then the content padded to a
512-byte boundary. -/
def serializeEntry (name : String) (content : List Nat) : List Nat :=
  tarHeader (name.data.map Char.toNat) 420 content.length ++ content ++
    List.replicate (tarPad content.length) 0

/-- The end-of-archive marker written by `tar.Writer.Close`: two zero
blocks. -/
def tarEndMarker : List Nat := List.replicate 1024 0

/-- The byte stream `TarArchiver.Close` returns, as a function of the
`AddFile` calls made before it (before compression). -/
def serializeArchive (entries : List (String × List Nat)) : List Nat :=
  (entries.map (fun e => serializeEntry e.1 e.2)).flatten ++ tarEndMarker

/-- `TarArchiver.Extension`, after `NewTarArchiver` has defaulted an
empty compression string to `gzip`. -/
def tarExtension (compression : String) : String :=
  if compression = "gzip" then ".tar.gz"
  else if compression = "zstd" then ".tar.zst"
  else ".tar"

/-- The compression `NewTarArchiver` actually uses: an empty string
defaults to `gzip` (`wrapWithArchiveSink` applies the same default). -/
def effectiveCompression (compression : String) : String :=
  if compression = "" then "gzip" else compression

/-! ### Un-archiving (the tar reader, as `readTarEntries` uses it) -/

/-- One entry recovered from a tar stream. -/
structure TarEntry where
  name : String
  mode : Nat
  size : Nat
  content : List Nat
deriving DecidableEq

/-- Is this a 512-byte block of NULs? -/
def isZeroBlock (b : List Nat) : Bool := b.all (fun x => x = 0)

/-- Well-formedness of an entry name for the USTAR name field: nonempty,
at most 100 bytes, no NUL, and ASCII (the step filenames
`{step_id}.{ext}` satisfy this). -/
def tarNameOk (name : String) : Prop :=
  name.data ≠ [] ∧ name.data.length ≤ 100 ∧
    ∀ c ∈ name.data, c.toNat ≠ 0 ∧ c.toNat < 128

/-- The tar reader loop: reads a header block, stops at the end-of-archive
marker (a zero block followed by a second zero block), verifies the
header checksum, extracts name / mode / size, and takes the `size`
content bytes plus block padding.  `fuel` bounds the recursion; the
top-level `unarchive` passes the stream length, which always suffices
because every entry consumes at least 512 bytes. -/
def parseEntries : Nat → List Nat → Option (List TarEntry)
  | 0, _ => none
  | fuel + 1, bytes =>
    if bytes.length < 512 then none
    else
      let hdr := bytes.take 512
      if isZeroBlock hdr then
        if 1024 ≤ bytes.length && isZeroBlock ((bytes.drop 512).take 512) then
          some []
        else none
      else
        let nameB := (hdr.take 100).takeWhile (fun b => b ≠ 0)
        let mode := parseOctal ((hdr.drop 100).take 8)
        let size := parseOctal ((hdr.drop 124).take 12)
        let storedChk := parseOctal ((hdr.drop 148).take 8)
        let computedChk := (hdr.take 148).sum + 8 * 32 + (hdr.drop 156).sum
        if storedChk ≠ computedChk then none
        else if bytes.length < 512 + size + tarPad size then none
        else
          let content := (bytes.drop 512).take size
          let rest := bytes.drop (512 + size + tarPad size)
          match parseEntries fuel rest with
          | none => none
          | some es =>
            some (⟨String.mk (nameB.map Char.ofNat), mode, size, content⟩ :: es)

/-- Un-archive a (decompressed) tar byte stream. -/
def unarchive (bytes : List Nat) : Option (List TarEntry) :=
  parseEntries bytes.length bytes

/-! ## Archive sink adapter (`internal/engine/sinks/archive.go`)

`Write(ctx, path, data)` delegates to `archiver.AddFile(path, data)`;
`Close(ctx)` finalizes the archive, performs `inner.Write(ctx,
s.archiveName, bytes)` — note: the stored `archiveName`, with no
extension appended — and then `inner.Close(ctx)`.  The compressor the
archiver was built with is the parameter `compress`. -/

/-- The trace of calls the archive sink makes on its inner sink, as a
function of the trace of calls it receives; `entries` is the archiver
state (the `AddFile` calls so far). -/
def archiveSinkInner (archiveName : String) (compress : List Nat → List Nat) :
    List SinkEvent → List (String × List Nat) → List SinkEvent
  | [], _ => []
  | .write p d :: rest, entries =>
    archiveSinkInner archiveName compress rest (entries ++ [(p, d)])
  | .close :: _, entries =>
    [.write archiveName (compress (serializeArchive entries)), .close]

/-- `wrapWithArchiveSink`: the archive name passed to `NewArchiveSink` —
the configured `archive.name`, defaulting to `metadata.name`.  No
extension is appended anywhere on this path. -/
def wrapArchiveName (specName jobName : String) : String :=
  if specName = "" then jobName else specName

/-! ## JSON decoding (model of `encoding/json`)

`json.Decoder.Decode` reads a single JSON value from the front of the
stream (trailing data is not consumed and not an error);
`json.Unmarshal` additionally requires the remainder to be whitespace.
The grammar below is RFC 8259 JSON. -/

/-- JSON insignificant whitespace. -/
def isJsonWs (c : Char) : Bool := c = ' ' || c = '\t' || c = '\n' || c = '\r'

/-- ASCII decimal digit. -/
def isDigit (c : Char) : Bool := '0' ≤ c && c ≤ '9'

/-- Hexadecimal digit value. -/
def hexVal (c : Char) : Option Nat :=
  if '0' ≤ c && c ≤ '9' then some (c.toNat - 48)
  else if 'a' ≤ c && c ≤ 'f' then some (c.toNat - 97 + 10)
  else if 'A' ≤ c && c ≤ 'F' then some (c.toNat - 65 + 10)
  else none

/-- Scan a JSON string literal body (after the opening quote): returns the
decoded characters and the input after the closing quote.  Raw control
characters and invalid escapes are rejected. -/
def scanStr : List Char → Option (List Char × List Char)
  | [] => none
  | '"' :: rest => some ([], rest)
  | '\\' :: esc =>
    match esc with
    | '"' :: rest => (scanStr rest).map (fun p => ('"' :: p.1, p.2))
    | '\\' :: rest => (scanStr rest).map (fun p => ('\\' :: p.1, p.2))
    | '/' :: rest => (scanStr rest).map (fun p => ('/' :: p.1, p.2))
    | 'b' :: rest => (scanStr rest).map (fun p => ('\x08' :: p.1, p.2))
    | 'f' :: rest => (scanStr rest).map (fun p => ('\x0C' :: p.1, p.2))
    | 'n' :: rest => (scanStr rest).map (fun p => ('\n' :: p.1, p.2))
    | 'r' :: rest => (scanStr rest).map (fun p => ('\r' :: p.1, p.2))
    | 't' :: rest => (scanStr rest).map (fun p => ('\t' :: p.1, p.2))
    | 'u' :: h1 :: h2 :: h3 :: h4 :: rest =>
      match hexVal h1, hexVal h2, hexVal h3, hexVal h4 with
      | some a, some b, some c, some d =>
        (scanStr rest).map
          (fun p => (Char.ofNat (((a * 16 + b) * 16 + c) * 16 + d) :: p.1, p.2))
      | _, _, _, _ => none
    | _ => none
  | c :: rest =>
    if c.toNat < 32 then none
    else (scanStr rest).map (fun p => (c :: p.1, p.2))

/-- The leading run of decimal digits, required nonempty. -/
def digits1 (l : List Char) : Option (List Char × List Char) :=
  let ds := l.takeWhile isDigit
  if ds = [] then none else some (ds, l.drop ds.length)

/-- Parse a JSON number literal from the front; returns its text. -/
def parseNumLit (l : List Char) : Option (List Char × List Char) :=
  let sgn : List Char × List Char :=
    match l with
    | '-' :: r => (['-'], r)
    | _ => ([], l)
  let intPart : Option (List Char × List Char) :=
    match sgn.2 with
    | '0' :: r => some (['0'], r)
    | c :: _ =>
      if isDigit c then digits1 sgn.2 else none
    | [] => none
  match intPart with
  | none => none
  | some (ip, r1) =>
    let fracPart : Option (List Char × List Char) :=
      match r1 with
      | '.' :: r2 =>
        match digits1 r2 with
        | some (ds, r3) => some ('.' :: ds, r3)
        | none => none
      | _ => some ([], r1)
    match fracPart with
    | none => none
    | some (fp, r2) =>
      let expPart : Option (List Char × List Char) :=
        match r2 with
        | 'e' :: r3 =>
          match r3 with
          | '+' :: r4 => (digits1 r4).map (fun p => ('e' :: '+' :: p.1, p.2))
          | '-' :: r4 => (digits1 r4).map (fun p => ('e' :: '-' :: p.1, p.2))
          | _ => (digits1 r3).map (fun p => ('e' :: p.1, p.2))
        | 'E' :: r3 =>
          match r3 with
          | '+' :: r4 => (digits1 r4).map (fun p => ('E' :: '+' :: p.1, p.2))
          | '-' :: r4 => (digits1 r4).map (fun p => ('E' :: '-' :: p.1, p.2))
          | _ => (digits1 r3).map (fun p => ('E' :: p.1, p.2))
        | _ => some ([], r2)
      match expPart with
      | none => none
      | some (ep, r3) => some (sgn.1 ++ ip ++ fp ++ ep, r3)

mutual

/-- Parse one JSON value from the front of the input (leading whitespace
skipped).  `fuel` bounds the recursion depth; the top-level entry point
supplies a bound larger than any possible nesting. -/
def parseJv : Nat → List Char → Option (Jv × List Char)
  | 0, _ => none
  | fuel + 1, l =>
    match l.dropWhile isJsonWs with
    | 'n' :: 'u' :: 'l' :: 'l' :: rest => some (.null, rest)
    | 't' :: 'r' :: 'u' :: 'e' :: rest => some (.bool true, rest)
    | 'f' :: 'a' :: 'l' :: 's' :: 'e' :: rest => some (.bool false, rest)
    | '"' :: rest => (scanStr rest).map (fun p => (.str (String.mk p.1), p.2))
    | '[' :: rest =>
      match rest.dropWhile isJsonWs with
      | ']' :: r2 => some (.arr [], r2)
      | r1 => (parseElems fuel r1).map (fun p => (.arr p.1, p.2))
    | '{' :: rest =>
      match rest.dropWhile isJsonWs with
      | '}' :: r2 => some (.obj [], r2)
      | r1 => (parseMembers fuel r1).map (fun p => (.obj p.1, p.2))
    | rest => (parseNumLit rest).map (fun p => (.num (String.mk p.1), p.2))

/-- Parse a nonempty comma-separated list of array elements, up to and
including the closing bracket. -/
def parseElems : Nat → List Char → Option (List Jv × List Char)
  | 0, _ => none
  | fuel + 1, l =>
    match parseJv fuel l with
    | none => none
    | some (v, r1) =>
      match r1.dropWhile isJsonWs with
      | ',' :: r2 =>
        (parseElems fuel r2).map (fun p => (v :: p.1, p.2))
      | ']' :: r2 => some ([v], r2)
      | _ => none

/-- Parse a nonempty comma-separated list of object members, up to and
including the closing brace. -/
def parseMembers : Nat → List Char → Option (List (String × Jv) × List Char)
  | 0, _ => none
  | fuel + 1, l =>
    match l.dropWhile isJsonWs with
    | '"' :: r1 =>
      match scanStr r1 with
      | none => none
      | some (key, r2) =>
        match r2.dropWhile isJsonWs with
        | ':' :: r3 =>
          match parseJv fuel r3 with
          | none => none
          | some (v, r4) =>
            match r4.dropWhile isJsonWs with
            | ',' :: r5 =>
              (parseMembers fuel r5).map
                (fun p => ((String.mk key, v) :: p.1, p.2))
            | '}' :: r5 => some ([(String.mk key, v)], r5)
            | _ => none
        | _ => none
    | _ => none

end

/-- `json.Decoder.Decode` on a string: decode a single JSON value from
the front; trailing data is left unread.  `none` models a decode error
(including empty input, which yields `io.EOF`). -/
def jsonDecodeOne (s : String) : Option (Jv × List Char) :=
  parseJv (2 * s.length + 4) s.data

/-- `json.Unmarshal` on a string: a single JSON value followed only by
whitespace. -/
def jsonUnmarshal (s : String) : Option Jv :=
  match jsonDecodeOne s with
  | some (v, rest) => if rest.dropWhile isJsonWs = [] then some v else none
  | none => none

/-! ## Base64 (model of `encoding/base64.StdEncoding`) -/

/-- The standard base64 alphabet. -/
def b64table : List Char :=
  "ABCDEFGHIJKLMNOPQRSTUVWXYZabcdefghijklmnopqrstuvwxyz0123456789+/".data

/-- The base64 character for a 6-bit group. -/
def b64digit (n : Nat) : Char := b64table.getD n '='

/-- Standard base64 with padding, over a byte list. -/
def base64Encode : List Nat → List Char
  | [] => []
  | [b1] => [b64digit (b1 / 4), b64digit (b1 % 4 * 16), '=', '=']
  | [b1, b2] =>
    [b64digit (b1 / 4), b64digit (b1 % 4 * 16 + b2 / 16),
      b64digit (b2 % 16 * 4), '=']
  | b1 :: b2 :: b3 :: rest =>
    b64digit (b1 / 4) :: b64digit (b1 % 4 * 16 + b2 / 16) ::
      b64digit (b2 % 16 * 4 + b3 / 64) :: b64digit (b3 % 64) ::
        base64Encode rest

/-- UTF-8 encoding of one scalar value. -/
def utf8Bytes (c : Char) : List Nat :=
  let n := c.toNat
  if n < 128 then [n]
  else if n < 2048 then [192 + n / 64, 128 + n % 64]
  else if n < 65536 then [224 + n / 4096, 128 + n / 64 % 64, 128 + n % 64]
  else [240 + n / 262144, 128 + n / 4096 % 64, 128 + n / 64 % 64,
    128 + n % 64]

/-- The bytes of a string (Go strings are UTF-8 byte strings). -/
def strBytes (s : String) : List Nat := (s.data.map utf8Bytes).flatten

/-! ## Exec step (`internal/engine/steps/exec.go`)

The subprocess itself is an external collaborator; its observable
behaviour for one run — exit status, captured stdout/stderr, and whether
the timeout context expired — is the parameter `obs`.  The embedding
covers the result post-processing of the `Resolve` closure built by
`NewExecStep`. -/

/-- The fields of `ExecStepConfig` the outcome processing depends on. -/
structure ExecConfig where
  program : List String
  format : Option String
  /-- The rendering of the effective timeout duration (default `30s`),
  used only in the timeout error message. -/
  timeoutStr : String

/-- Observable behaviour of one subprocess run. -/
structure ExecObs where
  exitOk : Bool
  stdout : String
  stderr : String
  /-- `ctx.Err() == context.DeadlineExceeded` after `cmd.Run`. -/
  timedOut : Bool

/-- The effective format: `cfg.Format`, defaulting to `"json"`. -/
def execFormat (cfg : ExecConfig) : String :=
  match cfg.format with
  | some f => f
  | none => "json"

/-- The `meta` map of a successful exec step. -/
def execMeta (cfg : ExecConfig) : List (String × String) :=
  [("exec_program", String.intercalate " " cfg.program),
    ("exec_format", execFormat cfg)]

/-- The outcome of the exec step's `Resolve`, given the subprocess
observation: on failure an error (a timeout message if the deadline
expired, else the trimmed stderr); on success, JSON-decoded stdout for
`format=json` (a decode failure is an error), or
`{"output": base64(stdout)}` for any other format. -/
def ExecResolve (cfg : ExecConfig) (obs : ExecObs) : Except String Result :=
  if !obs.exitOk then
    let stderrStr := obs.stderr.trim
    if obs.timedOut then
      .error ("command timed out after " ++ cfg.timeoutStr ++ ": " ++ stderrStr)
    else if stderrStr ≠ "" then
      .error ("command failed: " ++ stderrStr)
    else .error "command failed"
  else
    let meta := execMeta cfg
    if execFormat cfg = "json" then
      match jsonDecodeOne obs.stdout with
      | some (v, _) => .ok { id := "", data := v, meta := meta }
      | none => .error "failed to parse output as JSON"
    else
      .ok (Result.mk ""
        (.obj [("output", .str (String.mk (base64Encode (strBytes obs.stdout))))])
        meta)

/-! ## Static step (`internal/engine/steps/static.go`)

The file variant reads through `afero.NewBasePathFs(afero.NewOsFs(),
rootDir)` with `rootDir` the process working directory. -/

/-- Split a character list on `/` separators. -/
def splitPathAux : List Char → List Char → List String
  | [], acc => [String.mk acc.reverse]
  | '/' :: rest, acc => String.mk acc.reverse :: splitPathAux rest []
  | c :: rest, acc => splitPathAux rest (c :: acc)

/-- The components of a slash-separated path, dropping empty and `.`
components. -/
def splitPath (s : String) : List String :=
  (splitPathAux s.data []).filter (fun c => c ≠ "" && c ≠ ".")

/-- Resolve a relative path against a base component list lexically:
`..` pops one component (vanishing at the root, as `filepath.Clean` does
for absolute paths). -/
def resolveUnder (base : List String) (name : String) : List String :=
  (splitPath name).foldl
    (fun acc c => if c = ".." then acc.dropLast else acc ++ [c]) base

/-- Modelled from the spec: the base-path sandbox (`afero.BasePathFs`, an
external dependency whose source is not part of this repository) — reads
are "confined to that directory via a base-path abstraction that rejects
traversal".  A name is resolved lexically against the base directory; if
the resolved path is not under the base, the read is rejected with a
file-not-found error and the underlying filesystem is never consulted.
Returns the read outcome and the list of paths actually read from the
underlying filesystem. -/
def basePathRead (base : List String) (underlying : List String → Option String)
    (name : String) : Except String String × List (List String) :=
  let resolved := resolveUnder base name
  if base.isPrefixOf resolved then
    match underlying resolved with
    | some text => (.ok text, [resolved])
    | none => (.error "file does not exist", [resolved])
  else (.error "file does not exist", [])

/-- Go `filepath.Base` (for the non-degenerate paths the step handles):
the last non-empty path component. -/
def baseName (s : String) : String :=
  match ((splitPathAux s.data []).filter (fun c => c ≠ "")).getLast? with
  | some b => b
  | none =>
    match s.data with
    | '/' :: _ => "/"
    | _ => "."

/-- The `Resolve` of the static file step (`newStaticFileStep`): read the
file through the sandboxed filesystem; on success, parse as JSON when the
filename ends in `.json` and `parse_as` is unset or `json`, else wrap the
raw text under the path's basename.  Also returns the underlying reads
performed. -/
def staticFileResolve (base : List String)
    (underlying : List String → Option String) (filepath : String)
    (parseAs : Option String) : Except String Result × List (List String) :=
  match basePathRead base underlying filepath with
  | (.error err, reads) =>
    (.error ("failed to read filepath " ++ filepath ++ ": " ++ err), reads)
  | (.ok text, reads) =>
    if ".json".data.isSuffixOf filepath.data &&
        (parseAs = none || parseAs = some "json") then
      match jsonUnmarshal text with
      | some parsed =>
        (.ok { id := "", data := parsed, meta := [] }, reads)
      | none =>
        (.error ("failed to parse as json " ++ filepath), reads)
    else
      (.ok (Result.mk "" (.obj [(baseName filepath, .str text)]) []), reads)

/-! ## Pipeline construction and clock readings

`BuildVariables` (called from the collect command before the runner is
created) draws one `time.Now().UTC()` reading; `engine.NewPipeline`
(called later, inside `createPipeline`) draws another, independent
reading which becomes the pipeline's `date`. -/

/-- The identity-relevant state of `engine.NewPipeline`. -/
structure PipelineMeta where
  name : String
  date : DateTime

/-- `engine.NewPipeline`: captures its own `time.Now().UTC()` reading as
the pipeline date. -/
def NewPipeline (name : String) (now : DateTime) : PipelineMeta :=
  { name := name, date := now }

/-- The collect flow up to pipeline creation: `BuildVariables` runs with
the clock reading `nowVars`; afterwards `createPipeline` calls
`NewPipeline`, which takes the later, separate reading `nowPipeline`. -/
def collectFlow (jobName : String) (allowedEnv : List String)
    (env : String → Option String) (nowVars nowPipeline : DateTime) :
    Except (List String) (VarMap × PipelineMeta) :=
  match BuildVariables jobName allowedEnv env nowVars with
  | .error es => .error es
  | .ok vars => .ok (vars, NewPipeline jobName nowPipeline)

/-! # Theorems -/

/-! ## Lemmas about `buildVarsLoop` -/

theorem buildVarsLoop_errs (env : String → Option String) (l : List String)
    (m : VarMap) (errs : List String)
    (h : ∀ nm ∈ l, (env nm).isSome) :
    (buildVarsLoop env l m errs).2 = errs := by
  induction l generalizing m errs with
  | nil => rfl
  | cons nm rest ih =>
    have hnm := h nm (List.mem_cons_self nm rest)
    match henv : env nm with
    | none => rw [henv] at hnm; simp at hnm
    | some v =>
      simp only [buildVarsLoop, henv]
      exact ih _ _ (fun x hx => h x (List.mem_cons_of_mem _ hx))

theorem buildVarsLoop_lookup_not_mem (env : String → Option String)
    (l : List String) (m : VarMap) (errs : List String) (k : String)
    (h : k ∉ l) :
    (buildVarsLoop env l m errs).1 k = m k := by
  induction l generalizing m errs with
  | nil => rfl
  | cons nm rest ih =>
    have hk : k ≠ nm := fun he => h (he ▸ List.mem_cons_self nm rest)
    have hrest : k ∉ rest := fun hr => h (List.mem_cons_of_mem _ hr)
    match henv : env nm with
    | none => simp only [buildVarsLoop, henv]; exact ih _ _ hrest
    | some v =>
      simp only [buildVarsLoop, henv]
      rw [ih _ _ hrest]
      simp [VarMap.insert, hk]

theorem buildVarsLoop_lookup_mem (env : String → Option String)
    (l : List String) (m : VarMap) (errs : List String) (k : String)
    (v : String) (henv : env k = some v) (h : k ∈ l) :
    (buildVarsLoop env l m errs).1 k = some v := by
  induction l generalizing m errs with
  | nil => cases h
  | cons nm rest ih =>
    by_cases hmem : k ∈ rest
    · match he : env nm with
      | none => simp only [buildVarsLoop, he]; exact ih _ _ hmem
      | some w => simp only [buildVarsLoop, he]; exact ih _ _ hmem
    · have hk : k = nm := by
        rcases List.mem_cons.mp h with h1 | h2
        · exact h1
        · exact absurd h2 hmem
      subst hk
      simp only [buildVarsLoop, henv]
      rw [buildVarsLoop_lookup_not_mem env rest _ errs k hmem]
      simp [VarMap.insert]

/-- Claim C9: in `BuildVariables`, allow-listed environment variables are
inserted into the same map after the three built-ins, so an allow-list
entry that collides with a built-in name (here `JOB_NAME`) makes the
process environment's value silently replace the built-in value in the
map used for template expansion. -/
theorem C9_env_overrides_builtin (jobName : String) (allowedEnv : List String)
    (env : String → Option String) (date : DateTime) (v : String)
    (hmem : "JOB_NAME" ∈ allowedEnv) (henv : env "JOB_NAME" = some v)
    (hall : ∀ nm ∈ allowedEnv, (env nm).isSome) :
    ∃ m, BuildVariables jobName allowedEnv env date = .ok m ∧
      m "JOB_NAME" = some v := by
  refine ⟨(buildVarsLoop env allowedEnv (builtinVariables jobName date) []).1,
    ?_, ?_⟩
  · unfold BuildVariables
    rw [buildVarsLoop_errs env allowedEnv _ [] hall]
    rfl
  · exact buildVarsLoop_lookup_mem env allowedEnv _ [] _ v henv hmem

/-- Claim C9 witness: with job name `demo` and the environment binding
`JOB_NAME=shadow` allow-listed, the variable map binds `JOB_NAME` to
`shadow`, not to the job's `metadata.name`. -/
theorem C9_env_overrides_builtin_witness :
    ∃ m, BuildVariables "demo" ["JOB_NAME"]
        (fun k => if k = "JOB_NAME" then some "shadow" else none)
        ⟨2026, 1, 1, 0, 0, 0⟩ = .ok m ∧
      m "JOB_NAME" = some "shadow" ∧ "shadow" ≠ "demo" := by
  obtain ⟨m, h1, h2⟩ := C9_env_overrides_builtin "demo" ["JOB_NAME"]
    (fun k => if k = "JOB_NAME" then some "shadow" else none)
    ⟨2026, 1, 1, 0, 0, 0⟩ "shadow" (by decide) (by decide)
    (by intro nm hnm; simp at hnm; subst hnm; decide)
  exact ⟨m, h1, h2, by decide⟩

/-! ## Claim C4: the template date and the pipeline date -/

/-- Claim C4 counterexample: `BuildVariables` and `NewPipeline` each draw
their own `time.Now().UTC()` reading.  For a run whose two readings fall
on either side of a second boundary, the value bound to
`JOB_DATE_ISO8601` differs from the pipeline's `Date()` formatted in the
ISO8601-basic layout, refuting the claim that the built-ins and the
pipeline date come from one shared snapshot. -/
theorem C4_two_clock_readings_counterexample :
    match collectFlow "demo" [] (fun _ => none)
        ⟨2026, 1, 1, 0, 0, 0⟩ ⟨2026, 1, 1, 0, 0, 1⟩ with
    | .ok p =>
      p.1 "JOB_DATE_ISO8601" = some "20260101T000000Z" ∧
      formatISO8601 p.2.date = "20260101T000001Z" ∧
      p.1 "JOB_DATE_ISO8601" ≠ some (formatISO8601 p.2.date)
    | .error _ => False := by
  refine ⟨by decide, by decide, by decide⟩

/-- Claim C4 amended: the three built-ins are computed from
`metadata.name` and the single `time.Now().UTC()` reading that
`BuildVariables` takes, while the pipeline's `Date()` is a separate
reading taken in `NewPipeline`; the formatted equalities of the original
claim hold exactly when the two readings coincide. -/
theorem C4_amended (jobName : String) (allowedEnv : List String)
    (env : String → Option String) (nowVars nowPipeline : DateTime)
    (vars : VarMap) (pm : PipelineMeta)
    (hshadow : "JOB_NAME" ∉ allowedEnv ∧ "JOB_DATE_ISO8601" ∉ allowedEnv ∧
      "JOB_DATE_RFC3339" ∉ allowedEnv)
    (hflow : collectFlow jobName allowedEnv env nowVars nowPipeline =
      .ok (vars, pm)) :
    vars "JOB_NAME" = some jobName ∧
    vars "JOB_DATE_ISO8601" = some (formatISO8601 nowVars) ∧
    vars "JOB_DATE_RFC3339" = some (formatRFC3339 nowVars) ∧
    pm.date = nowPipeline ∧
    (nowVars = nowPipeline →
      vars "JOB_DATE_ISO8601" = some (formatISO8601 pm.date) ∧
      vars "JOB_DATE_RFC3339" = some (formatRFC3339 pm.date)) := by
  obtain ⟨h1, h2, h3⟩ := hshadow
  unfold collectFlow at hflow
  match hbv : BuildVariables jobName allowedEnv env nowVars with
  | .error es => rw [hbv] at hflow; cases hflow
  | .ok m =>
    rw [hbv] at hflow
    have hm : m = vars ∧ NewPipeline jobName nowPipeline = pm := by
      cases hflow; exact ⟨rfl, rfl⟩
    obtain ⟨hmv, hpm⟩ := hm
    subst hmv
    unfold BuildVariables at hbv
    by_cases herrs : (buildVarsLoop env allowedEnv
        (builtinVariables jobName nowVars) []).2 = []
    · simp only [herrs, if_pos rfl] at hbv
      have hmeq : m = (buildVarsLoop env allowedEnv
          (builtinVariables jobName nowVars) []).1 := by
        cases hbv; rfl
      subst hmeq
      have hb1 := buildVarsLoop_lookup_not_mem env allowedEnv
        (builtinVariables jobName nowVars) [] "JOB_NAME" h1
      have hb2 := buildVarsLoop_lookup_not_mem env allowedEnv
        (builtinVariables jobName nowVars) [] "JOB_DATE_ISO8601" h2
      have hb3 := buildVarsLoop_lookup_not_mem env allowedEnv
        (builtinVariables jobName nowVars) [] "JOB_DATE_RFC3339" h3
      refine ⟨?_, ?_, ?_, ?_, ?_⟩
      · rw [hb1]; rfl
      · rw [hb2]; rfl
      · rw [hb3]; rfl
      · rw [← hpm]; rfl
      · intro heq
        subst heq
        rw [← hpm]
        exact ⟨by rw [hb2]; rfl, by rw [hb3]; rfl⟩
    · simp only [if_neg herrs] at hbv; cases hbv

/-- Claim C4 amended witness: a concrete run with an empty allow-list and
coinciding clock readings. -/
theorem C4_amended_witness :
    (buildVarsLoop (fun _ => none) []
        (builtinVariables "demo" ⟨2026, 1, 1, 0, 0, 0⟩) []).1 "JOB_NAME" =
      some "demo" ∧
    (buildVarsLoop (fun _ => none) []
        (builtinVariables "demo" ⟨2026, 1, 1, 0, 0, 0⟩) []).1
      "JOB_DATE_ISO8601" = some (formatISO8601 ⟨2026, 1, 1, 0, 0, 0⟩) ∧
    (buildVarsLoop (fun _ => none) []
        (builtinVariables "demo" ⟨2026, 1, 1, 0, 0, 0⟩) []).1
      "JOB_DATE_RFC3339" = some (formatRFC3339 ⟨2026, 1, 1, 0, 0, 0⟩) ∧
    (NewPipeline "demo" ⟨2026, 1, 1, 0, 0, 0⟩).date = ⟨2026, 1, 1, 0, 0, 0⟩ ∧
    ((⟨2026, 1, 1, 0, 0, 0⟩ : DateTime) = ⟨2026, 1, 1, 0, 0, 0⟩ →
      (buildVarsLoop (fun _ => none) []
          (builtinVariables "demo" ⟨2026, 1, 1, 0, 0, 0⟩) []).1
        "JOB_DATE_ISO8601" =
          some (formatISO8601 (NewPipeline "demo" ⟨2026, 1, 1, 0, 0, 0⟩).date) ∧
      (buildVarsLoop (fun _ => none) []
          (builtinVariables "demo" ⟨2026, 1, 1, 0, 0, 0⟩) []).1
        "JOB_DATE_RFC3339" =
          some (formatRFC3339 (NewPipeline "demo" ⟨2026, 1, 1, 0, 0, 0⟩).date)) :=
  C4_amended "demo" [] (fun _ => none) ⟨2026, 1, 1, 0, 0, 0⟩
    ⟨2026, 1, 1, 0, 0, 0⟩
    (buildVarsLoop (fun _ => none) []
      (builtinVariables "demo" ⟨2026, 1, 1, 0, 0, 0⟩) []).1
    (NewPipeline "demo" ⟨2026, 1, 1, 0, 0, 0⟩)
    ⟨by decide, by decide, by decide⟩ rfl

/-! ## Claim C2: collector cleanup on start failure -/

/-- Claim C2 (code bug): the deferred cleanup in `Runner.Run` is
registered only after the collector start loop, so when a later
collector's `Start` fails, `Run` returns the start error without
attempting `Close` on any collector — including the one already started.
With collectors `a` (starts fine) and `b` (start fails), the run returns
the wrapped start error, `a` is started, yet the set of collectors whose
`Close` was attempted is empty. -/
theorem C2_start_failure_skips_close :
    (startLoop [CollectorModel.mk "a" "A" none,
      CollectorModel.mk "b" "B" (some "boom")]).1 = ["a"] ∧
    (RunnerRun [CollectorModel.mk "a" "A" none,
        CollectorModel.mk "b" "B" (some "boom")] [] (fun _ => []) "json"
        []).result =
      .error "failed to start collector \x27b\x27 (B): boom" ∧
    (RunnerRun [CollectorModel.mk "a" "A" none,
        CollectorModel.mk "b" "B" (some "boom")] [] (fun _ => []) "json"
        []).closed = [] ∧
    (RunnerRun [CollectorModel.mk "a" "A" none,
        CollectorModel.mk "b" "B" (some "boom")] [] (fun _ => []) "json"
        []).sinkEvents = [] :=
  ⟨rfl, rfl, rfl, rfl⟩

/-- When every `Start` succeeds, the deferred cleanup does attempt `Close`
on every collector, even if the pipeline run itself fails (the partial
truth of claim C2, used to delimit the bug to the start-failure path). -/
theorem startLoop_all_ok (collectors : List CollectorModel)
    (h : ∀ c ∈ collectors, c.startErr = none) :
    (startLoop collectors).2 = none := by
  induction collectors with
  | nil => rfl
  | cons c rest ih =>
    have hc := h c (List.mem_cons_self c rest)
    simp only [startLoop, hc]
    exact ih (fun x hx => h x (List.mem_cons_of_mem _ hx))

/-! ## Claim C3: the archive write path -/

/-- Claim C3 (code bug): closing the archive sink finalizes the archive
and performs exactly one inner `Write` followed by exactly one inner
`Close`, but the write path is the bare configured archive base-name —
`wrapWithArchiveSink` passes `archive.name` (default `metadata.name`) to
`NewArchiveSink` and `ArchiveSink.Close` writes under `s.archiveName`
unchanged — with the archiver's extension (`.tar.gz` for the default
tar+gzip) never appended, contradicting the code's own doc comment on
`ArchiveSpec.Name`. -/
theorem C3_archive_path_missing_extension :
    wrapArchiveName "" "demo" = "demo" ∧
    effectiveCompression "" = "gzip" ∧
    tarExtension (effectiveCompression "") = ".tar.gz" ∧
    archiveSinkInner (wrapArchiveName "" "demo") id
        [.write "s1.json" [65], .close] [] =
      [.write "demo" (serializeArchive [("s1.json", [65])]), .close] ∧
    writePathsOf (archiveSinkInner (wrapArchiveName "" "demo") id
        [.write "s1.json" [65], .close] []) = ["demo"] ∧
    "demo" ≠ "demo" ++ tarExtension (effectiveCompression "") :=
  ⟨rfl, rfl, rfl, rfl, rfl, by decide⟩

/-! ## Claim C10: behaviour on a failing step -/

theorem pipelineRun_prefix_error (pre : List StepEntry) (bad : StepEntry)
    (post : List StepEntry) (msg : String)
    (hpre : ∀ e ∈ pre, ∃ r, e.resolve = .ok r)
    (hbad : bad.resolve = .error msg) :
    pipelineRun (pre ++ bad :: post) =
      .error ("failed to resolve step \x27" ++ bad.id ++ "\x27: " ++ msg) := by
  induction pre with
  | nil => simp only [List.nil_append, pipelineRun, hbad]
  | cons e rest ih =>
    obtain ⟨r, hr⟩ := hpre e (List.mem_cons_self e rest)
    have ih' := ih (fun x hx => hpre x (List.mem_cons_of_mem _ hx))
    simp only [List.cons_append, pipelineRun, hr, List.append_eq, ih']

theorem pipelineRunTrace_prefix_error (pre : List StepEntry)
    (bad : StepEntry) (post : List StepEntry) (msg : String)
    (hpre : ∀ e ∈ pre, ∃ r, e.resolve = .ok r)
    (hbad : bad.resolve = .error msg) :
    pipelineRunTrace (pre ++ bad :: post) =
      pre.map (fun e => e.id) ++ [bad.id] := by
  induction pre with
  | nil => simp only [List.nil_append, pipelineRunTrace, hbad, List.map_nil]
  | cons e rest ih =>
    obtain ⟨r, hr⟩ := hpre e (List.mem_cons_self e rest)
    have ih' := ih (fun x hx => hpre x (List.mem_cons_of_mem _ hx))
    simp only [List.cons_append, pipelineRunTrace, hr, List.append_eq, ih',
      List.map_cons, List.cons_append]

/-- Claim C10: when some step's `Resolve` fails, `Pipeline.Run` returns
no result map, only the error wrapped with that step's id; the steps
resolved are exactly the earlier (successful) ones plus the failing one —
later steps are never resolved — and the runner, whose collectors all
started, performs no sink call at all for the run. -/
theorem C10_resolve_error_behaviour (pre : List StepEntry) (bad : StepEntry)
    (post : List StepEntry) (msg : String)
    (collectors : List CollectorModel) (encode : Result → List Nat)
    (ext : String) (writeOrder : List (String × Result))
    (hpre : ∀ e ∈ pre, ∃ r, e.resolve = .ok r)
    (hbad : bad.resolve = .error msg)
    (hstart : ∀ c ∈ collectors, c.startErr = none) :
    pipelineRun (pre ++ bad :: post) =
      .error ("failed to resolve step \x27" ++ bad.id ++ "\x27: " ++ msg) ∧
    pipelineRunTrace (pre ++ bad :: post) =
      pre.map (fun e => e.id) ++ [bad.id] ∧
    (RunnerRun collectors (pre ++ bad :: post) encode ext
      writeOrder).sinkEvents = [] ∧
    (RunnerRun collectors (pre ++ bad :: post) encode ext
        writeOrder).result =
      .error ("failed to run pipeline: " ++
        ("failed to resolve step \x27" ++ bad.id ++ "\x27: " ++ msg)) := by
  have hrun := pipelineRun_prefix_error pre bad post msg hpre hbad
  have hloop := startLoop_all_ok collectors hstart
  refine ⟨hrun, pipelineRunTrace_prefix_error pre bad post msg hpre hbad,
    ?_, ?_⟩
  · simp only [RunnerRun, hloop, hrun]
  · simp only [RunnerRun, hloop, hrun]

/-- Claim C10 witness: a two-step pipeline whose second step fails, run
with one collector; the sink sees no call. -/
theorem C10_resolve_error_behaviour_witness :
    pipelineRun [StepEntry.mk "s1" (.ok (Result.mk "" .null [])),
        StepEntry.mk "s2" (.error "boom")] =
      .error "failed to resolve step \x27s2\x27: boom" ∧
    pipelineRunTrace [StepEntry.mk "s1" (.ok (Result.mk "" .null [])),
        StepEntry.mk "s2" (.error "boom")] = ["s1", "s2"] ∧
    (RunnerRun [CollectorModel.mk "a" "A" none]
        [StepEntry.mk "s1" (.ok (Result.mk "" .null [])),
          StepEntry.mk "s2" (.error "boom")] (fun _ => []) "json"
        []).sinkEvents = [] ∧
    (RunnerRun [CollectorModel.mk "a" "A" none]
        [StepEntry.mk "s1" (.ok (Result.mk "" .null [])),
          StepEntry.mk "s2" (.error "boom")] (fun _ => []) "json"
        []).result =
      .error ("failed to run pipeline: " ++
        ("failed to resolve step \x27" ++ "s2" ++ "\x27: " ++ "boom")) :=
  C10_resolve_error_behaviour [StepEntry.mk "s1" (.ok (Result.mk "" .null []))]
    (StepEntry.mk "s2" (.error "boom")) [] "boom"
    [CollectorModel.mk "a" "A" none] (fun _ => []) "json" []
    (by intro e he; simp at he; subst he; exact ⟨Result.mk "" .null [], rfl⟩)
    rfl
    (by intro c hc; simp at hc; subst hc; rfl)

/-! ## Claim C5: template expansion errors -/

-- Unresolved references recorded by the expansion scan are exactly the
-- references whose lookup fails, in encounter order (at any fuel).
theorem expandGo_snd (vars : VarMap) (fuel : Nat) (s : List Char) :
    (expandGo vars fuel s).2 =
      (referencesGo fuel s).filter (fun n => (vars n).isNone) := by
  induction fuel, s using expandGo.induct vars with
  | case1 => rfl
  | case2 => rfl
  | case3 => rfl
  | case4 fuel c rest nw hcond ih =>
    simp only [expandGo, referencesGo]
    rw [if_pos hcond, if_pos hcond]
    exact ih
  | case5 fuel c rest nw hcond hempty ih =>
    simp only [expandGo, referencesGo]
    rw [if_neg hcond, if_neg hcond, if_pos hempty, if_pos hempty]
    exact ih
  | case6 fuel c rest nw hcond hne name v hsome ih =>
    simp only [expandGo, referencesGo]
    rw [if_neg hcond, if_neg hcond, if_neg hne, if_neg hne, hsome]
    rw [List.filter_cons_of_neg (by simp [hsome])]
    exact ih
  | case7 fuel c rest nw hcond hne name hnone ih =>
    simp only [expandGo, referencesGo]
    rw [if_neg hcond, if_neg hcond, if_neg hne, if_neg hne, hnone]
    rw [List.filter_cons_of_pos (by simp [hnone])]
    rw [ih]
  | case8 fuel c rest h1 h2 ih =>
    simp only [expandGo, referencesGo]
    exact ih

-- The same relation at the entry point.
theorem expandCore_snd (vars : VarMap) (s : List Char) :
    (expandCore vars s).2 =
      (references s).filter (fun n => (vars n).isNone) :=
  expandGo_snd vars s.length s

/-- Claim C5: template expansion resolves every `${NAME}` / `$NAME`
reference against the variable map; when every referenced variable is
present expansion succeeds, and when any is absent it fails with the
aggregated error list holding exactly one error per unresolved reference
occurrence (in encounter order), each mentioning that variable's name. -/
theorem C5_expand_unresolved (value : String) (vars : VarMap) :
    ((references value.data).filter (fun n => (vars n).isNone) = [] →
      ∃ out, Expand value vars = .ok out) ∧
    ((references value.data).filter (fun n => (vars n).isNone) ≠ [] →
      Expand value vars =
        .error (((references value.data).filter
          (fun n => (vars n).isNone)).map notAllowedMsg) ∧
      ∀ n ∈ (references value.data).filter (fun n => (vars n).isNone),
        ∃ pre post, notAllowedMsg n = pre ++ n ++ post) := by
  have hsnd := expandCore_snd vars value.data
  constructor
  · intro h
    refine ⟨String.mk (expandCore vars value.data).1, ?_⟩
    unfold Expand
    rw [hsnd, h]
    simp
  · intro h
    refine ⟨?_, ?_⟩
    · unfold Expand
      rw [hsnd]
      rw [if_neg h]
    · intro n _
      exact ⟨"environment variable \"", "\" is not in the allowed list", rfl⟩

/-- Claim C5 witness: `${A} $B $B` with only `A` bound — expansion fails
with two errors, one per unresolved `$B` occurrence, each mentioning `B`;
and with both bound, expansion succeeds. -/
theorem C5_expand_unresolved_witness :
    (Expand "a ${A} $B $B" (VarMap.empty.insert "A" "x") =
      .error [notAllowedMsg "B", notAllowedMsg "B"] ∧
      ∀ n ∈ (references "a ${A} $B $B".data).filter
          (fun n => (((VarMap.empty.insert "A" "x") : VarMap) n).isNone),
        ∃ pre post, notAllowedMsg n = pre ++ n ++ post) ∧
    (∃ out, Expand "a ${A} $B" ((VarMap.empty.insert "A" "x").insert "B" "y")
      = .ok out) := by
  constructor
  · have h := (C5_expand_unresolved "a ${A} $B $B"
      (VarMap.empty.insert "A" "x")).2 (by decide)
    exact ⟨by rw [h.1]; rfl, h.2⟩
  · exact (C5_expand_unresolved "a ${A} $B"
      ((VarMap.empty.insert "A" "x").insert "B" "y")).1 (by decide)

/-! ## Claim C7: static step sandbox -/

/-- Claim C7: for every static file step whose `filepath` escapes the
working-directory sandbox — a `..`-style traversal resolving to a path
not under the base directory — `Resolve` returns an error and the
underlying filesystem is never read (the trace of underlying reads is
empty).  The sandbox itself (`afero.BasePathFs`) is modelled from the
spec, see `basePathRead`. -/
theorem C7_static_traversal_rejected (base : List String)
    (underlying : List String → Option String) (filepath : String)
    (parseAs : Option String)
    (hesc : ¬ base.isPrefixOf (resolveUnder base filepath)) :
    (∃ e, (staticFileResolve base underlying filepath parseAs).1 =
      .error e) ∧
    (staticFileResolve base underlying filepath parseAs).2 = [] := by
  have hb : basePathRead base underlying filepath =
      (.error "file does not exist", []) := by
    unfold basePathRead
    rw [if_neg hesc]
  unfold staticFileResolve
  rw [hb]
  exact ⟨⟨_, rfl⟩, rfl⟩

/-- Claim C7 witness: with working directory `/work`, the static step
filepath `../secret.txt` resolves to `/secret.txt`, outside the sandbox:
`Resolve` errors and no underlying read happens. -/
theorem C7_static_traversal_rejected_witness :
    (∃ e, (staticFileResolve ["work"]
      (fun p => if p = ["secret.txt"] then some "s" else none)
      "../secret.txt" none).1 = .error e) ∧
    (staticFileResolve ["work"]
      (fun p => if p = ["secret.txt"] then some "s" else none)
      "../secret.txt" none).2 = [] :=
  C7_static_traversal_rejected ["work"]
    (fun p => if p = ["secret.txt"] then some "s" else none)
    "../secret.txt" none (by decide)

/-! ## Claim C8: exec step outcome -/

/-- Claim C8: for an exec step whose program exits 0: with the effective
format `json`, stdout is decoded as a single JSON value and returned as
the result's `data`, and stdout from which no JSON value can be decoded
is an error; with format `raw`, `data` is `{"output": base64(stdout)}`;
in both cases `meta` is exactly `exec_program` (the argv joined by a
single space) and `exec_format`. -/
theorem C8_exec_success_outcomes (cfg : ExecConfig) (obs : ExecObs)
    (hok : obs.exitOk = true) :
    (execFormat cfg = "json" →
      (∀ v rest, jsonDecodeOne obs.stdout = some (v, rest) →
        ExecResolve cfg obs = .ok (Result.mk "" v (execMeta cfg))) ∧
      (jsonDecodeOne obs.stdout = none →
        ExecResolve cfg obs = .error "failed to parse output as JSON")) ∧
    (execFormat cfg = "raw" →
      ExecResolve cfg obs = .ok (Result.mk ""
        (.obj [("output",
          .str (String.mk (base64Encode (strBytes obs.stdout))))])
        (execMeta cfg))) ∧
    execMeta cfg = [("exec_program", String.intercalate " " cfg.program),
      ("exec_format", execFormat cfg)] := by
  refine ⟨fun hfmt => ⟨fun v rest hdec => ?_, fun hdec => ?_⟩,
    fun hfmt => ?_, rfl⟩
  · unfold ExecResolve
    rw [hok]
    simp only [Bool.not_true, Bool.false_eq_true, if_false, hfmt,
      if_pos rfl, hdec]
    exact if_pos trivial
  · unfold ExecResolve
    rw [hok]
    simp only [Bool.not_true, Bool.false_eq_true, if_false, hfmt,
      if_pos rfl, hdec]
    exact if_pos trivial
  · unfold ExecResolve
    rw [hok]
    have hne : ¬ (execFormat cfg = "json") := by rw [hfmt]; decide
    simp only [Bool.not_true, Bool.false_eq_true, if_false, if_neg hne]

/-- Claim C8 witness: `format=json` with stdout `{"k":1}` yields that
object as `data`; invalid JSON stdout errors; `format=raw` with stdout
`hi` yields `{"output": "aGk="}`; the meta entries are as claimed. -/
theorem C8_exec_success_outcomes_witness :
    (ExecResolve (ExecConfig.mk ["sh", "-c", "emit"] none "30s")
        (ExecObs.mk true "\x7b\"k\":1\x7d" "" false) =
      .ok (Result.mk "" (.obj [("k", .num "1")])
        (execMeta (ExecConfig.mk ["sh", "-c", "emit"] none "30s")))) ∧
    (ExecResolve (ExecConfig.mk ["sh", "-c", "emit"] none "30s")
        (ExecObs.mk true "not json" "" false) =
      .error "failed to parse output as JSON") ∧
    (ExecResolve (ExecConfig.mk ["sh"] (some "raw") "30s")
        (ExecObs.mk true "hi" "" false) =
      .ok (Result.mk "" (.obj [("output", .str "aGk=")])
        (execMeta (ExecConfig.mk ["sh"] (some "raw") "30s")))) ∧
    execMeta (ExecConfig.mk ["sh", "-c", "emit"] none "30s") =
      [("exec_program", "sh -c emit"), ("exec_format", "json")] := by
  refine ⟨?_, ?_, ?_, rfl⟩
  · exact ((C8_exec_success_outcomes
      (ExecConfig.mk ["sh", "-c", "emit"] none "30s")
      (ExecObs.mk true "\x7b\"k\":1\x7d" "" false) rfl).1 rfl).1
      (.obj [("k", .num "1")]) [] rfl
  · exact ((C8_exec_success_outcomes
      (ExecConfig.mk ["sh", "-c", "emit"] none "30s")
      (ExecObs.mk true "not json" "" false) rfl).1 rfl).2 rfl
  · exact ((C8_exec_success_outcomes (ExecConfig.mk ["sh"] (some "raw") "30s")
      (ExecObs.mk true "hi" "" false) rfl).2.1 rfl).trans (by rfl)

/-! ## Claim C1: sink observations of a run -/

-- On a successful run the results map holds exactly the step ids, in
-- declaration order.
theorem pipelineRun_ok_ids :
    ∀ {steps : List StepEntry} {results : List (String × Result)},
      pipelineRun steps = .ok results →
      results.map Prod.fst = steps.map (fun e => e.id) := by
  intro steps
  induction steps with
  | nil => intro results h; cases h; rfl
  | cons e rest ih =>
    intro results h
    unfold pipelineRun at h
    match hres : e.resolve with
    | .error err => rw [hres] at h; cases h
    | .ok r =>
      rw [hres] at h
      match hrun : pipelineRun rest with
      | .error err => rw [hrun] at h; cases h
      | .ok m =>
        rw [hrun] at h
        cases h
        simp only [List.map_cons, List.map_cons]
        rw [ih hrun]

-- The write events of `WriteResults` are exactly one per iterated
-- result, in iteration order.
theorem writesOf_WriteResults (encode : Result → List Nat) (ext : String)
    (order : List (String × Result)) :
    writesOf (WriteResults encode ext order) =
      order.map (fun p => .write (p.1 ++ "." ++ ext) (encode p.2)) := by
  induction order with
  | nil => rfl
  | cons p rest ih =>
    simp only [WriteResults, writesOf, List.map_cons, List.cons_append,
      List.filter_cons] at ih ⊢
    simp only [if_pos trivial]
    exact congrArg _ ih

theorem writePathsOf_WriteResults (encode : Result → List Nat)
    (ext : String) (order : List (String × Result)) :
    writePathsOf (WriteResults encode ext order) =
      order.map (fun p => p.1 ++ "." ++ ext) := by
  induction order with
  | nil => rfl
  | cons p rest ih =>
    simp only [WriteResults, writePathsOf, List.map_cons, List.cons_append,
      List.filterMap_cons] at ih ⊢
    exact congrArg _ ih

-- The archive sink turns a writes-then-close trace into exactly one
-- inner write of the finalized archive followed by one inner close.
theorem archiveSinkInner_writes (name : String)
    (compress : List Nat → List Nat) (ws : List (String × List Nat))
    (acc : List (String × List Nat)) :
    archiveSinkInner name compress
        ((ws.map fun p => SinkEvent.write p.1 p.2) ++ [.close]) acc =
      [.write name (compress (serializeArchive (acc ++ ws))), .close] := by
  induction ws generalizing acc with
  | nil => simp [archiveSinkInner]
  | cons w rest ih =>
    obtain ⟨w1, w2⟩ := w
    simp only [List.map_cons, List.cons_append, archiveSinkInner]
    rw [show acc ++ (w1, w2) :: rest = (acc ++ [(w1, w2)]) ++ rest by simp]
    exact ih (acc ++ [(w1, w2)])

/-- Claim C1 counterexample: `WriteResults` ranges over the Go map of
results, so the write order is the map's iteration order, not the steps'
declaration order.  For the two-step pipeline `s1`, `s2`, the reversed
iteration order is a permutation of the results map — hence a legal Go
map iteration — yet the sink observes the writes as
`[s2.json, s1.json]`, not in declaration order. -/
theorem C1_declaration_order_counterexample :
    pipelineRun [StepEntry.mk "s1" (.ok (Result.mk "" .null [])),
        StepEntry.mk "s2" (.ok (Result.mk "" .null []))] =
      .ok [("s1", Result.mk "s1" .null []), ("s2", Result.mk "s2" .null [])] ∧
    List.Perm
      [("s2", Result.mk "s2" .null []), ("s1", Result.mk "s1" .null [])]
      [("s1", Result.mk "s1" .null []), ("s2", Result.mk "s2" .null [])] ∧
    writePathsOf (WriteResults (fun _ => []) "json"
        [("s2", Result.mk "s2" .null []), ("s1", Result.mk "s1" .null [])]) =
      ["s2.json", "s1.json"] ∧
    ["s2.json", "s1.json"] ≠ ["s1.json", "s2.json"] :=
  ⟨rfl, List.Perm.swap _ _ _, rfl, by decide⟩

/-- Claim C1 amended: for a successful run of a pipeline with N steps,
the sink observes exactly N `Write` calls — one per step, under paths
`{step_id}.{ext}` forming a permutation of the declaration-order
filenames, the order being the results-map iteration order — followed by
one `Close`; in the archive case the inner sink observes exactly one
`Write` (the finalized archive) followed by one `Close`.  Declaration
order of the writes themselves is not guaranteed. -/
theorem C1_amended_sink_observations (steps : List StepEntry)
    (results order : List (String × Result)) (encode : Result → List Nat)
    (ext name : String) (compress : List Nat → List Nat)
    (hok : pipelineRun steps = .ok results) (hperm : order.Perm results) :
    (writesOf (WriteResults encode ext order)).length = steps.length ∧
    (writePathsOf (WriteResults encode ext order)).Perm
      (steps.map (fun e => e.id ++ "." ++ ext)) ∧
    WriteResults encode ext order =
      (order.map fun p => SinkEvent.write (p.1 ++ "." ++ ext) (encode p.2))
        ++ [.close] ∧
    archiveSinkInner name compress (WriteResults encode ext order) [] =
      [.write name (compress (serializeArchive
        (order.map fun p => (p.1 ++ "." ++ ext, encode p.2)))), .close] := by
  have hids := pipelineRun_ok_ids hok
  have hlen : results.length = steps.length := by
    have := congrArg List.length hids
    simpa using this
  refine ⟨?_, ?_, rfl, ?_⟩
  · rw [writesOf_WriteResults]
    rw [List.length_map, hperm.length_eq, hlen]
  · rw [writePathsOf_WriteResults]
    have h1 : (order.map (fun p => p.1 ++ "." ++ ext)).Perm
        (results.map (fun p => p.1 ++ "." ++ ext)) :=
      hperm.map _
    have h2 : results.map (fun p => p.1 ++ "." ++ ext) =
        steps.map (fun e => e.id ++ "." ++ ext) := by
      have := congrArg (List.map (fun s => s ++ "." ++ ext)) hids
      simpa [List.map_map, Function.comp] using this
    rw [h2] at h1
    exact h1
  · have := archiveSinkInner_writes name compress
      (order.map fun p => (p.1 ++ "." ++ ext, encode p.2)) []
    simp only [List.map_map, List.nil_append] at this
    rw [show WriteResults encode ext order =
      ((order.map fun p => (p.1 ++ "." ++ ext, encode p.2)).map
        fun p => SinkEvent.write p.1 p.2) ++ [.close] by
        simp [WriteResults, List.map_map]]
    rw [archiveSinkInner_writes]
    rw [List.nil_append]

/-- Claim C1 amended witness: the two-step pipeline written under the
reversed iteration order — two writes (a permutation of
`[s1.json, s2.json]`) then one close; and through the archive sink,
exactly one inner write then one inner close. -/
theorem C1_amended_sink_observations_witness :
    (writesOf (WriteResults (fun _ => [65]) "json"
      [("s2", Result.mk "s2" .null []),
        ("s1", Result.mk "s1" .null [])])).length = 2 ∧
    (writePathsOf (WriteResults (fun _ => [65]) "json"
      [("s2", Result.mk "s2" .null []),
        ("s1", Result.mk "s1" .null [])])).Perm ["s1.json", "s2.json"] ∧
    WriteResults (fun _ => [65]) "json"
        [("s2", Result.mk "s2" .null []), ("s1", Result.mk "s1" .null [])] =
      ([("s2", Result.mk "s2" .null []),
        ("s1", Result.mk "s1" .null [])].map
          fun p => SinkEvent.write (p.1 ++ "." ++ "json") ((fun _ => [65]) p.2))
        ++ [.close] ∧
    archiveSinkInner "demo" id (WriteResults (fun _ => [65]) "json"
        [("s2", Result.mk "s2" .null []), ("s1", Result.mk "s1" .null [])])
        [] =
      [.write "demo" (id (serializeArchive
        ([("s2", Result.mk "s2" .null []),
          ("s1", Result.mk "s1" .null [])].map
            fun p => (p.1 ++ "." ++ "json", (fun _ => [65]) p.2)))),
        .close] := by
  have h := C1_amended_sink_observations
    [StepEntry.mk "s1" (.ok (Result.mk "" .null [])),
      StepEntry.mk "s2" (.ok (Result.mk "" .null []))]
    [("s1", Result.mk "s1" .null []), ("s2", Result.mk "s2" .null [])]
    [("s2", Result.mk "s2" .null []), ("s1", Result.mk "s1" .null [])]
    (fun _ => [65]) "json" "demo" id rfl (List.Perm.swap _ _ _)
  exact ⟨h.1, h.2.1, h.2.2.1, h.2.2.2⟩

/-! ## Claim C6: archive round-trip

The chain below proves that the tar reader inverts the tar writer entry
by entry: octal fields round-trip, the header slices back into its
fields, and the entry list is recovered in full. -/

theorem digitsLen_le_of_lt {n k : Nat} (h : n < 8 ^ k) :
    (Nat.digits 8 n).length ≤ k := by
  rcases Nat.eq_zero_or_pos n with hz | hp
  · subst hz; simp
  · have hne : n ≠ 0 := Nat.pos_iff_ne_zero.mp hp
    rw [Nat.digits_len 8 n (by norm_num) hne]
    have := (Nat.lt_pow_iff_log_lt (by norm_num : 1 < 8) hne).mp h
    omega

theorem formatOctal_length {w n : Nat} (h : n < 8 ^ (w - 1)) (hw : 1 ≤ w) :
    (formatOctal w n).length = w := by
  unfold formatOctal
  have hd : ((Nat.digits 8 n).reverse.map (fun d => d + 48)).length =
      (Nat.digits 8 n).length := by simp
  have hlen := digitsLen_le_of_lt h
  simp only [List.length_append, List.length_replicate, hd,
    List.length_singleton]
  omega

-- Octal digit bytes lie in the ASCII digit range.
theorem formatOctal_digit_bytes {n : Nat} {b : Nat}
    (hb : b ∈ (Nat.digits 8 n).reverse.map (fun d => d + 48)) :
    48 ≤ b ∧ b ≤ 55 := by
  simp only [List.mem_map, List.mem_reverse] at hb
  obtain ⟨d, hd, rfl⟩ := hb
  have := Nat.digits_lt_base (by norm_num : 1 < 8) hd
  omega

theorem foldOct_replicate (z : Nat) :
    (List.replicate z 48).foldl (fun a d => a * 8 + (d - 48)) 0 = 0 := by
  induction z with
  | zero => rfl
  | succ k ih => simpa [List.replicate_succ] using ih

theorem foldOct_digits (L : List Nat) (hL : ∀ d ∈ L, d < 8) :
    ∀ a, (L.reverse.map (fun d => d + 48)).foldl
      (fun a d => a * 8 + (d - 48)) a = a * 8 ^ L.length + Nat.ofDigits 8 L := by
  induction L with
  | nil => intro a; simp
  | cons d L ih =>
    intro a
    have hd := hL d (List.mem_cons_self d L)
    have hL' : ∀ x ∈ L, x < 8 := fun x hx => hL x (List.mem_cons_of_mem _ hx)
    simp only [List.reverse_cons, List.map_append, List.map_cons,
      List.map_nil, List.foldl_append, List.foldl_cons, List.foldl_nil]
    rw [ih hL' a, Nat.ofDigits_cons, Nat.add_sub_cancel]
    simp only [List.length_cons, pow_succ]
    ring

theorem foldOct_full (z : Nat) (L : List Nat) (hL : ∀ d ∈ L, d < 8) :
    (List.replicate z 48 ++ L.reverse.map (fun d => d + 48)).foldl
      (fun a d => a * 8 + (d - 48)) 0 = Nat.ofDigits 8 L := by
  rw [List.foldl_append, foldOct_replicate, foldOct_digits L hL 0]
  simp

-- `takeWhile` through a prefix of digit bytes.
theorem takeWhile_oct_append (pre post : List Nat)
    (hpre : ∀ b ∈ pre, (48 ≤ b && b ≤ 55) = true) :
    (pre ++ post).takeWhile (fun b => 48 ≤ b && b ≤ 55) =
      pre ++ post.takeWhile (fun b => 48 ≤ b && b ≤ 55) := by
  induction pre with
  | nil => rfl
  | cons b rest ih =>
    have hb := hpre b (List.mem_cons_self b rest)
    simp only [List.cons_append, List.takeWhile_cons, hb, if_true]
    rw [ih (fun x hx => hpre x (List.mem_cons_of_mem _ hx))]

theorem parseOctal_formatOctal {w n : Nat} :
    parseOctal (formatOctal w n) = n := by
  unfold parseOctal formatOctal
  rw [List.append_assoc]
  rw [takeWhile_oct_append _ _ (by
    intro b hb
    simp only [List.mem_replicate] at hb
    simp [hb.2])]
  rw [takeWhile_oct_append _ _ (by
    intro b hb
    have := formatOctal_digit_bytes hb
    simp [this.1, this.2])]
  have hz : ([(0 : Nat)].takeWhile (fun b => 48 ≤ b && b ≤ 55)) = [] := by
    decide
  rw [hz, List.append_nil]
  rw [foldOct_full _ _ (fun d hd => Nat.digits_lt_base (by norm_num) hd)]
  exact Nat.ofDigits_digits 8 n

theorem padTo_length {w : Nat} {l : List Nat} (h : l.length ≤ w) :
    (padTo w l).length = w := by
  simp only [padTo, List.length_append, List.length_replicate]
  omega

theorem formatOctal_byte_le {w n : Nat} : ∀ b ∈ formatOctal w n, b ≤ 55 := by
  intro b hb
  unfold formatOctal at hb
  rcases List.mem_append.mp hb with h | h
  · rcases List.mem_append.mp h with h1 | h1
    · simp only [List.mem_replicate] at h1; omega
    · exact (formatOctal_digit_bytes h1).2
  · simp only [List.mem_singleton] at h; omega

theorem tarHeaderPre_length {nameB : List Nat} {size : Nat}
    (h : nameB.length ≤ 100) (hsize : size < 8 ^ 11) :
    (tarHeaderPre nameB 420 size).length = 148 := by
  unfold tarHeaderPre
  rw [List.length_append, List.length_append, List.length_append,
    List.length_append, List.length_append, padTo_length h]
  rw [formatOctal_length (show (420 : Nat) < 8 ^ (8 - 1) by norm_num)
    (by norm_num)]
  rw [formatOctal_length (show (0 : Nat) < 8 ^ (8 - 1) by norm_num)
    (by norm_num)]
  rw [formatOctal_length (show (0 : Nat) < 8 ^ (12 - 1) by norm_num)
    (by norm_num)]
  rw [formatOctal_length
    (show size < 8 ^ (12 - 1) by norm_num at hsize ⊢; exact hsize)
    (by norm_num)]

theorem tarHeaderPre_bytes_le {nameB : List Nat} {size : Nat}
    (hb : ∀ b ∈ nameB, b < 128) :
    ∀ b ∈ tarHeaderPre nameB 420 size, b ≤ 255 := by
  intro b hmem
  unfold tarHeaderPre at hmem
  rcases List.mem_append.mp hmem with h | h
  · rcases List.mem_append.mp h with h | h
    · rcases List.mem_append.mp h with h | h
      · rcases List.mem_append.mp h with h | h
        · rcases List.mem_append.mp h with h | h
          · unfold padTo at h
            rcases List.mem_append.mp h with h1 | h1
            · exact le_of_lt (lt_of_lt_of_le (hb b h1) (by norm_num))
            · simp only [List.mem_replicate] at h1; omega
          · exact le_trans (formatOctal_byte_le b h) (by norm_num)
        · exact le_trans (formatOctal_byte_le b h) (by norm_num)
      · exact le_trans (formatOctal_byte_le b h) (by norm_num)
    · exact le_trans (formatOctal_byte_le b h) (by norm_num)
  · exact le_trans (formatOctal_byte_le b h) (by norm_num)

set_option maxRecDepth 8192 in
theorem tarHeaderPost_sum : tarHeaderPost.sum = 655 := by decide

theorem tarChecksum_lt {nameB : List Nat} {size : Nat}
    (hb : ∀ b ∈ nameB, b < 128) (hlen : nameB.length ≤ 100)
    (hsize : size < 8 ^ 11) :
    tarChecksum (tarHeaderPre nameB 420 size) tarHeaderPost < 8 ^ 6 := by
  unfold tarChecksum
  have h1 : (tarHeaderPre nameB 420 size).sum ≤ 148 * 255 := by
    have := List.sum_le_card_nsmul (tarHeaderPre nameB 420 size) 255
      (tarHeaderPre_bytes_le hb)
    rw [tarHeaderPre_length hlen hsize] at this
    simpa using this
  rw [tarHeaderPost_sum]
  omega

set_option maxRecDepth 8192 in
theorem tarHeaderPost_length : tarHeaderPost.length = 356 := by decide

theorem tarHeader_length {nameB : List Nat} {size : Nat}
    (hb : ∀ b ∈ nameB, b < 128) (hlen : nameB.length ≤ 100)
    (hsize : size < 8 ^ 11) :
    (tarHeader nameB 420 size).length = 512 := by
  unfold tarHeader
  rw [List.length_append, List.length_append, List.length_append,
    tarHeaderPre_length hlen hsize, tarHeaderPost_length]
  rw [formatOctal_length
    (show tarChecksum (tarHeaderPre nameB 420 size) tarHeaderPost < 8 ^ (7 - 1)
      by norm_num; exact tarChecksum_lt hb hlen hsize) (by norm_num)]
  simp

theorem takeWhile_append_all {α : Type} (p : α → Bool) (pre post : List α)
    (h : ∀ x ∈ pre, p x = true) :
    (pre ++ post).takeWhile p = pre ++ post.takeWhile p := by
  induction pre with
  | nil => rfl
  | cons a rest ih =>
    have ha := h a (List.mem_cons_self a rest)
    simp only [List.cons_append, List.takeWhile_cons, ha, if_true]
    rw [ih (fun x hx => h x (List.mem_cons_of_mem _ hx))]

theorem takeWhile_replicate_zero (k : Nat) :
    (List.replicate k (0 : Nat)).takeWhile (fun b => b ≠ 0) = [] := by
  cases k with
  | zero => rfl
  | succ m => simp [List.replicate_succ, List.takeWhile_cons]

-- Extraction of the header fields the reader looks at, from a header the
-- writer produced.
theorem tarHeader_slices {nameB : List Nat} {size : Nat}
    (hb : ∀ b ∈ nameB, b < 128) (hlen : nameB.length ≤ 100)
    (hsize : size < 8 ^ 11) :
    (tarHeader nameB 420 size).take 100 = padTo 100 nameB ∧
    ((tarHeader nameB 420 size).drop 100).take 8 = formatOctal 8 420 ∧
    ((tarHeader nameB 420 size).drop 124).take 12 = formatOctal 12 size ∧
    ((tarHeader nameB 420 size).drop 148).take 8 =
      formatOctal 7 (tarChecksum (tarHeaderPre nameB 420 size)
        tarHeaderPost) ++ [32] ∧
    (tarHeader nameB 420 size).take 148 = tarHeaderPre nameB 420 size ∧
    (tarHeader nameB 420 size).drop 156 = tarHeaderPost := by
  have hA : (padTo 100 nameB).length = 100 := padTo_length hlen
  have hB : (formatOctal 8 420).length = 8 :=
    formatOctal_length (by norm_num) (by norm_num)
  have hC : (formatOctal 8 0).length = 8 :=
    formatOctal_length (by norm_num) (by norm_num)
  have hE : (formatOctal 12 size).length = 12 :=
    formatOctal_length (by norm_num at hsize ⊢; exact hsize) (by norm_num)
  have hPre : (tarHeaderPre nameB 420 size).length = 148 :=
    tarHeaderPre_length hlen hsize
  have hChkF : (formatOctal 7 (tarChecksum (tarHeaderPre nameB 420 size)
      tarHeaderPost) ++ [32]).length = 8 := by
    rw [List.length_append,
      formatOctal_length (show _ < 8 ^ (7 - 1) by
        norm_num; exact tarChecksum_lt hb hlen hsize) (by norm_num)]
    rfl
  have hshape : tarHeader nameB 420 size =
      padTo 100 nameB ++ (formatOctal 8 420 ++ (formatOctal 8 0 ++
        (formatOctal 8 0 ++ (formatOctal 12 size ++ (formatOctal 12 0 ++
          ((formatOctal 7 (tarChecksum (tarHeaderPre nameB 420 size)
            tarHeaderPost) ++ [32]) ++ tarHeaderPost)))))) := by
    unfold tarHeader tarHeaderPre
    simp [List.append_assoc]
  refine ⟨?_, ?_, ?_, ?_, ?_, ?_⟩
  · rw [hshape]
    exact List.take_left' hA
  · rw [hshape, List.drop_left' hA]
    exact List.take_left' hB
  · rw [hshape]
    rw [show (124 : Nat) = (padTo 100 nameB).length + 24 by rw [hA],
      List.drop_append]
    rw [show (24 : Nat) = (formatOctal 8 420).length + 16 by rw [hB],
      List.drop_append]
    rw [show (16 : Nat) = (formatOctal 8 0).length + 8 by rw [hC],
      List.drop_append]
    rw [List.drop_left' hC]
    exact List.take_left' hE
  · unfold tarHeader
    rw [List.append_assoc, List.drop_left' hPre]
    exact List.take_left' hChkF
  · unfold tarHeader
    rw [List.append_assoc]
    exact List.take_left' hPre
  · unfold tarHeader
    rw [List.append_assoc]
    rw [show (156 : Nat) = (tarHeaderPre nameB 420 size).length + 8 by
      rw [hPre], List.drop_append]
    exact List.drop_left' hChkF

theorem parseOctal_formatOctal_space {w n : Nat} :
    parseOctal (formatOctal w n ++ [32]) = n := by
  unfold parseOctal formatOctal
  rw [List.append_assoc, List.append_assoc]
  rw [takeWhile_oct_append _ _ (by
    intro b hb
    simp only [List.mem_replicate] at hb
    simp [hb.2])]
  rw [takeWhile_oct_append _ _ (by
    intro b hb
    have := formatOctal_digit_bytes hb
    simp [this.1, this.2])]
  have hz : (([0] ++ [32]).takeWhile (fun b => 48 ≤ b && b ≤ 55)) = [] := by
    decide
  rw [hz, List.append_nil]
  rw [foldOct_full _ _ (fun d hd => Nat.digits_lt_base (by norm_num) hd)]
  exact Nat.ofDigits_digits 8 n

-- The reader consumes one serialized entry and returns exactly the
-- written name, mode 0644, size and content, leaving the remaining
-- stream untouched.
theorem parseEntries_step (fuel : Nat) (name : String) (content : List Nat)
    (rest : List Nat) (hname : tarNameOk name)
    (hsize : content.length < 8 ^ 11) :
    parseEntries (fuel + 1) (serializeEntry name content ++ rest) =
      (parseEntries fuel rest).map
        (fun es => TarEntry.mk name 420 content.length content :: es) := by
  obtain ⟨hne, hlen100, hchars⟩ := hname
  have hb : ∀ b ∈ name.data.map Char.toNat, b < 128 := by
    intro b hmem
    obtain ⟨c, hc, rfl⟩ := List.mem_map.mp hmem
    exact (hchars c hc).2
  have hnz : ∀ b ∈ name.data.map Char.toNat, b ≠ 0 := by
    intro b hmem
    obtain ⟨c, hc, rfl⟩ := List.mem_map.mp hmem
    exact (hchars c hc).1
  have hnbl : (name.data.map Char.toNat).length ≤ 100 := by
    simpa using hlen100
  have hhl : (tarHeader (name.data.map Char.toNat) 420
      content.length).length = 512 :=
    tarHeader_length hb hnbl hsize
  have hslices := tarHeader_slices hb hnbl hsize
  have hbytes : serializeEntry name content ++ rest =
      tarHeader (name.data.map Char.toNat) 420 content.length ++
        (content ++ (List.replicate (tarPad content.length) 0 ++ rest)) := by
    simp [serializeEntry, List.append_assoc]
  have hblen : (serializeEntry name content ++ rest).length =
      512 + (content.length + (tarPad content.length + rest.length)) := by
    rw [hbytes]
    simp [hhl]
  have hzb : isZeroBlock (tarHeader (name.data.map Char.toNat) 420
      content.length) = false := by
    obtain ⟨c, cs, hnd⟩ : ∃ c cs, name.data = c :: cs := by
      cases hx : name.data with
      | nil => exact absurd hx hne
      | cons c cs => exact ⟨c, cs, rfl⟩
    apply List.all_eq_false.mpr
    have hx : c.toNat ∈ name.data.map Char.toNat := by
      rw [hnd]; exact List.mem_cons_self _ _
    refine ⟨c.toNat, ?_, by
      simpa using (hchars c (hnd ▸ List.mem_cons_self c cs)).1⟩
    simp only [tarHeader, tarHeaderPre, padTo, List.append_assoc,
      List.mem_append]
    tauto
  have hnamev : ((tarHeader (name.data.map Char.toNat) 420
        content.length).take 100).takeWhile (fun b => b ≠ 0) =
      name.data.map Char.toNat := by
    rw [hslices.1]
    unfold padTo
    rw [takeWhile_append_all _ _ _ (by
      intro x hx
      simpa using hnz x hx)]
    rw [takeWhile_replicate_zero, List.append_nil]
  have hofNat : (name.data.map Char.toNat).map Char.ofNat = name.data := by
    rw [List.map_map]
    have : (Char.ofNat ∘ Char.toNat) = id := by
      funext c
      exact Char.ofNat_toNat c
    rw [this, List.map_id]
  rw [hbytes]
  rw [show parseEntries (fuel + 1)
      (tarHeader (name.data.map Char.toNat) 420 content.length ++
        (content ++ (List.replicate (tarPad content.length) 0 ++ rest))) =
      _ from rfl]
  simp only [parseEntries]
  rw [if_neg (by
    rw [← hbytes, hblen]
    omega)]
  rw [List.take_left' hhl, List.drop_left' hhl]
  rw [hzb]
  simp only [Bool.false_eq_true, if_false]
  rw [hnamev, hslices.2.1, hslices.2.2.1, hslices.2.2.2.1,
    hslices.2.2.2.2.1, hslices.2.2.2.2.2]
  rw [parseOctal_formatOctal, parseOctal_formatOctal,
    parseOctal_formatOctal_space]
  rw [if_neg (by
    unfold tarChecksum
    simp)]
  rw [if_neg (by
    rw [← hbytes, hblen]
    omega)]
  rw [List.take_left' rfl]
  rw [show (512 : Nat) + content.length + tarPad content.length =
      (tarHeader (name.data.map Char.toNat) 420 content.length).length +
        (content.length + tarPad content.length) by rw [hhl]; omega]
  rw [List.drop_append]
  rw [show content.length + tarPad content.length =
      content.length + tarPad content.length from rfl]
  rw [@List.drop_append Nat content _ (tarPad content.length)]
  rw [List.drop_left' (List.length_replicate _ _)]
  rw [hofNat]
  match hp : parseEntries fuel rest with
  | none => rfl
  | some es => rfl

theorem isZeroBlock_replicate (n : Nat) :
    isZeroBlock (List.replicate n 0) = true := by
  simp [isZeroBlock, List.all_eq_true, List.mem_replicate]

theorem parseEntries_endMarker (f : Nat) :
    parseEntries (f + 1) tarEndMarker = some [] := by
  show parseEntries (f + 1) (List.replicate 1024 0) = some []
  simp only [parseEntries, List.length_replicate, List.take_replicate,
    List.drop_replicate]
  rw [if_neg (by norm_num : ¬ ((1024 : Nat) < 512))]
  rw [show ((512 : Nat) ⊓ 1024) = 512 by norm_num]
  rw [show ((1024 : Nat) - 512) = 512 by norm_num]
  rw [show ((512 : Nat) ⊓ 512) = 512 by norm_num]
  rw [isZeroBlock_replicate]
  rw [if_pos rfl]
  rw [if_pos (by norm_num : ((decide ((1024 : Nat) ≤ 1024)) && true) = true)]

-- Un-archiving a serialized archive recovers every entry: name, mode
-- 0644, size equal to the content length, and the content itself.
theorem parseEntries_serializeArchive (es : List (String × List Nat))
    (hok : ∀ e ∈ es, tarNameOk e.1 ∧ e.2.length < 8 ^ 11) :
    ∀ fuel, es.length < fuel →
    parseEntries fuel
        ((es.map (fun e => serializeEntry e.1 e.2)).flatten ++ tarEndMarker) =
      some (es.map (fun e => TarEntry.mk e.1 420 e.2.length e.2)) := by
  induction es with
  | nil =>
    intro fuel hf
    match fuel, hf with
    | f + 1, _ =>
      rw [List.map_nil, List.flatten_nil, List.nil_append, List.map_nil]
      exact parseEntries_endMarker f
  | cons e es ih =>
    intro fuel hf
    match fuel, hf with
    | f + 1, hf =>
      have he := hok e (List.mem_cons_self e es)
      simp only [List.map_cons, List.flatten_cons, List.append_assoc]
      rw [parseEntries_step f e.1 e.2 _ he.1 he.2]
      rw [ih (fun x hx => hok x (List.mem_cons_of_mem _ hx)) f (by
        simp only [List.length_cons] at hf
        omega)]
      rfl

/-- The total length of a serialized archive strictly exceeds the number
of entries, so the stream length is always enough parser fuel. -/
theorem serializeArchive_length_gt (es : List (String × List Nat)) :
    es.length < ((es.map (fun e => serializeEntry e.1 e.2)).flatten ++
      tarEndMarker).length := by
  have h1 : ∀ (nm : String) (ct : List Nat),
      1 ≤ (serializeEntry nm ct).length := by
    intro nm ct
    simp only [serializeEntry, tarHeader, List.length_append,
      tarHeaderPost_length]
    omega
  induction es with
  | nil => simp [tarEndMarker]
  | cons e es ih =>
    simp only [List.map_cons, List.flatten_cons, List.append_assoc,
      List.length_append, List.length_cons] at ih ⊢
    have := h1 e.1 e.2
    omega

/-- `unarchive` inverts `serializeArchive` on well-formed entries. -/
theorem unarchive_serializeArchive (es : List (String × List Nat))
    (hok : ∀ e ∈ es, tarNameOk e.1 ∧ e.2.length < 8 ^ 11) :
    unarchive (serializeArchive es) =
      some (es.map (fun e => TarEntry.mk e.1 420 e.2.length e.2)) := by
  unfold unarchive serializeArchive
  exact parseEntries_serializeArchive es hok _ (serializeArchive_length_gt es)

/-- Claim C6: for an archived run, the inner sink receives the
(compressed) archive bytes exactly once; un-archiving them yields exactly
N tar entries — one per step — whose names are the per-step filenames
`{step_id}.{ext}` and whose contents are the per-step encoded outputs
(as a permutation of the declaration-order list, the entry order being
the results-map iteration order), each entry having mode 0644 (420) and
size equal to the byte length of its payload.  `compress`/`decompress`
model the external gzip/zstd codec via its round-trip contract. -/
theorem C6_archive_roundtrip (steps : List StepEntry)
    (results order : List (String × Result)) (encode : Result → List Nat)
    (ext name : String) (compress decompress : List Nat → List Nat)
    (hok : pipelineRun steps = .ok results) (hperm : order.Perm results)
    (hname : ∀ p ∈ order, tarNameOk (p.1 ++ "." ++ ext))
    (hsize : ∀ p ∈ order, (encode p.2).length < 8 ^ 11)
    (hinv : ∀ b, decompress (compress b) = b) :
    archiveSinkInner name compress (WriteResults encode ext order) [] =
      [.write name (compress (serializeArchive
        (order.map fun p => (p.1 ++ "." ++ ext, encode p.2)))), .close] ∧
    unarchive (decompress (compress (serializeArchive
        (order.map fun p => (p.1 ++ "." ++ ext, encode p.2))))) =
      some (order.map fun p =>
        TarEntry.mk (p.1 ++ "." ++ ext) 420 (encode p.2).length
          (encode p.2)) ∧
    (order.map fun p =>
      TarEntry.mk (p.1 ++ "." ++ ext) 420 (encode p.2).length
        (encode p.2)).length = steps.length ∧
    ((order.map fun p =>
      TarEntry.mk (p.1 ++ "." ++ ext) 420 (encode p.2).length
        (encode p.2)).map fun t => (t.name, t.content)).Perm
      (results.map fun p => (p.1 ++ "." ++ ext, encode p.2)) ∧
    ∀ t ∈ (order.map fun p =>
      TarEntry.mk (p.1 ++ "." ++ ext) 420 (encode p.2).length (encode p.2)),
      t.mode = 420 ∧ t.size = t.content.length := by
  refine ⟨?_, ?_, ?_, ?_, ?_⟩
  · exact (C1_amended_sink_observations steps results order encode ext name
      compress hok hperm).2.2.2
  · rw [hinv]
    rw [unarchive_serializeArchive
      (order.map fun p => (p.1 ++ "." ++ ext, encode p.2))
      (by
        intro e he
        obtain ⟨p, hp, rfl⟩ := List.mem_map.mp he
        exact ⟨hname p hp, hsize p hp⟩)]
    rw [List.map_map]
    rfl
  · rw [List.length_map, hperm.length_eq]
    have := congrArg List.length (pipelineRun_ok_ids hok)
    simpa using this
  · rw [List.map_map]
    have h1 : ((fun t : TarEntry => (t.name, t.content)) ∘
        (fun p : String × Result =>
          TarEntry.mk (p.1 ++ "." ++ ext) 420 (encode p.2).length
            (encode p.2))) =
        fun p : String × Result => (p.1 ++ "." ++ ext, encode p.2) := by
      funext p
      rfl
    rw [h1]
    exact hperm.map _
  · intro t ht
    obtain ⟨p, hp, rfl⟩ := List.mem_map.mp ht
    exact ⟨rfl, rfl⟩

/-- Claim C6 witness: a concrete archived two-step run with the identity
codec — the inner sink receives one write of the archive, and
un-archiving recovers both entries, names, contents, mode 0644 and
sizes. -/
theorem C6_archive_roundtrip_witness :
    archiveSinkInner "demo" id (WriteResults (fun _ => [65]) "json"
        [("s2", Result.mk "s2" .null []),
          ("s1", Result.mk "s1" .null [])]) [] =
      [.write "demo" (id (serializeArchive
        ([("s2", Result.mk "s2" .null []),
          ("s1", Result.mk "s1" .null [])].map
            fun p => (p.1 ++ "." ++ "json", (fun _ => [65]) p.2)))),
        .close] ∧
    unarchive (id (id (serializeArchive
        ([("s2", Result.mk "s2" .null []),
          ("s1", Result.mk "s1" .null [])].map
            fun p => (p.1 ++ "." ++ "json", (fun _ => [65]) p.2))))) =
      some ([("s2", Result.mk "s2" .null []),
        ("s1", Result.mk "s1" .null [])].map fun p =>
          TarEntry.mk (p.1 ++ "." ++ "json") 420
            ((fun _ => [65]) p.2).length ((fun _ => [65]) p.2)) ∧
    ([("s2", Result.mk "s2" .null []),
      ("s1", Result.mk "s1" .null [])].map fun p =>
        TarEntry.mk (p.1 ++ "." ++ "json") 420
          ((fun _ => [65]) p.2).length ((fun _ => [65]) p.2)).length = 2 ∧
    (([("s2", Result.mk "s2" .null []),
      ("s1", Result.mk "s1" .null [])].map fun p =>
        TarEntry.mk (p.1 ++ "." ++ "json") 420
          ((fun _ => [65]) p.2).length ((fun _ => [65]) p.2)).map
            fun t => (t.name, t.content)).Perm
      ([("s1", Result.mk "s1" .null []),
        ("s2", Result.mk "s2" .null [])].map
          fun p => (p.1 ++ "." ++ "json", (fun _ => [65]) p.2)) ∧
    ∀ t ∈ ([("s2", Result.mk "s2" .null []),
      ("s1", Result.mk "s1" .null [])].map fun p =>
        TarEntry.mk (p.1 ++ "." ++ "json") 420
          ((fun _ => [65]) p.2).length ((fun _ => [65]) p.2)),
      t.mode = 420 ∧ t.size = t.content.length := by
  have h := C6_archive_roundtrip
    [StepEntry.mk "s1" (.ok (Result.mk "" .null [])),
      StepEntry.mk "s2" (.ok (Result.mk "" .null []))]
    [("s1", Result.mk "s1" .null []), ("s2", Result.mk "s2" .null [])]
    [("s2", Result.mk "s2" .null []), ("s1", Result.mk "s1" .null [])]
    (fun _ => [65]) "json" "demo" id id rfl (List.Perm.swap _ _ _)
    (by intro p hp
        simp only [List.mem_cons, List.not_mem_nil, or_false] at hp
        rcases hp with rfl | rfl
        · exact ⟨by decide, by decide, by decide⟩
        · exact ⟨by decide, by decide, by decide⟩)
    (by intro p hp; norm_num)
    (fun b => rfl)
  have hl : ([("s2", Result.mk "s2" .null []),
      ("s1", Result.mk "s1" .null [])].map fun p =>
        TarEntry.mk (p.1 ++ "." ++ "json") 420
          ((fun _ => [65]) p.2).length ((fun _ => [65]) p.2)).length = 2 :=
    rfl
  exact ⟨h.1, h.2.1, hl, h.2.2.2.1, h.2.2.2.2⟩

end Infracollect
